import Mathlib

/-!
Verification development for the self-addressing data (SAD) layer of the
`cesride` repository, centred on `src/core/serder_acdc.rs` (the `SerderACDC`
record type) and the generic machinery it relies on: the version-string
codec, the generic self-describing record lifecycle (`Sadder`), the
self-addressing identifier engine (`Saider`) and the primitive code table
(`Matter`).  `serder_acdc.rs` is translated directly; the collaborators it
calls, which are part of the repository but not of the provided sources, are
modelled from the specification (each such definition says so in its doc
comment).
-/

set_option maxRecDepth 100000

/-- Modelled from the spec (§7): the error kinds of the layer.  The source
file `serder_acdc.rs` constructs only `Error::Value(msg)` (in
`validate_ident`); the remaining kinds are the spec's declared error set for
the collaborators that are not among the provided sources. -/
inductive Error where
  | UnknownCode : Error
  | MalformedVersionString : Error
  | UnsupportedKind : Error
  | Incomplete : Error
  | DigestMismatch : Error
  | CodecFailure : Error
  | Value : String → Error
deriving DecidableEq, Repr

/-- Rust `Result<T>` as used throughout the crate: a value or an `Error`. -/
abbrev CResult (α : Type) := Except Error α

/-- Field labels (crate `common::Ids`): the conventional one-character field
names used by the record types. -/
def Ids.d : String := "d"

/-- Field label `i` (issuer). -/
def Ids.i : String := "i"

/-- Field label `s` (schema). -/
def Ids.s : String := "s"

/-- Field label `a` (attributes / subject). -/
def Ids.a : String := "a"

/-- Field label `v` (version string). -/
def Ids.v : String := "v"

/-- Protocol identity tag for the credential protocol (crate
`common::Identage::ACDC`). -/
def Identage.ACDC : String := "ACDC"

/-- Protocol identity tag for the key-event-log protocol (crate
`common::Identage::KERI`). -/
def Identage.KERI : String := "KERI"

/-- Serialization kind tag for the human-readable text encoding (crate
`common::Serialage::JSON`). -/
def Serialage.JSON : String := "JSON"

/-- Serialization kind tag for the self-describing binary-map encoding. -/
def Serialage.CBOR : String := "CBOR"

/-- Serialization kind tag for the compact binary encoding. -/
def Serialage.MGPK : String := "MGPK"

/-- Primitive code of the Blake3-256 digest (crate
`core::matter::tables::Codex::Blake3_256`); the 44-character self-describing
digests in the source file's own test vectors carry this one-character
prefix. -/
def Codex.Blake3_256 : String := "E"

/-- Primitive code of the Blake2b-256 digest. -/
def Codex.Blake2b_256 : String := "F"

/-- Primitive code of the SHA3-256 digest. -/
def Codex.SHA3_256 : String := "H"

/-- Modelled from the spec (§4.1): the primitive code table (`Matter`).
`lookup(code)` yields the fixed number of characters a digest of that code
occupies when self-describing-encoded; absent codes are unknown.  The table
is modelled with representative 32-byte digest entries (each occupying 44
text characters); the full table of the crate is not among the provided
sources. -/
def Matter.sizage (code : String) : Option Nat :=
  if code = Codex.Blake3_256 ∨ code = Codex.Blake2b_256 ∨ code = Codex.SHA3_256 then
    some 44
  else
    none

/-- Protocol version (crate `common::Version`): major and minor numbers. -/
structure Version where
  major : Nat
  minor : Nat
deriving DecidableEq, Repr

/-- The current protocol version (crate `common::CURRENT_VERSION`), 1.0. -/
def CURRENT_VERSION : Version := ⟨1, 0⟩

/-- Modelled from the spec (§3): the generic ordered field-map value (crate
`data::Value`).  Values are strings, ordered sequences, ordered field maps
(insertion order is semantically meaningful, hence an association list), and
a null value; the crate's `data` module is not among the provided sources,
and the numeric and boolean forms it also supports play no role in any
claim. -/
inductive Value where
  | null : Value
  | str : String → Value
  | arr : List Value → Value
  | map : List (String × Value) → Value
deriving Repr

/-- First binding of a key in an association list (insertion order). -/
def lookupPairs (k : String) : List (String × Value) → Option Value
  | [] => none
  | (k', v) :: ps => if k' = k then some v else lookupPairs k ps

/-- Replace the first binding of `k` (keeping its position), or append a new
binding at the end if `k` is absent. -/
def putPairs (k : String) (v : Value) : List (String × Value) → List (String × Value)
  | [] => [(k, v)]
  | (k', v') :: ps => if k' = k then (k, v) :: ps else (k', v') :: putPairs k v ps

/-- Field lookup on a `Value` (none on non-maps and absent keys). -/
def Value.lookup (m : Value) (k : String) : Option Value :=
  match m with
  | .map ps => lookupPairs k ps
  | _ => none

/-- Whether a map value carries the key `k`. -/
def Value.hasKey (m : Value) (k : String) : Bool :=
  (m.lookup k).isSome

/-- Modelled from the spec (§7): total field indexing, as used by the
source's accessors (`self.ked()[Ids::i]`).  Every operation is total over
the declared error set, so indexing an absent key yields the null value
(whose later conversions then fail with an error rather than a crash). -/
def Value.atD (m : Value) (k : String) : Value :=
  (m.lookup k).getD .null

/-- Field update on a `Value`: fails on non-maps, otherwise replaces the
first binding in place (or appends). -/
def Value.put (m : Value) (k : String) (v : Value) : CResult Value :=
  match m with
  | .map ps => .ok (.map (putPairs k v ps))
  | _ => .error (.Value "not a map")

/-- Conversion to an ordered map (crate `Value::to_map`), failing on
non-map values. -/
def Value.toMap (m : Value) : CResult (List (String × Value)) :=
  match m with
  | .map ps => .ok ps
  | _ => .error (.Value "not a map")

/-- Conversion to a string (crate `Value::to_string`), failing on non-string
values. -/
def Value.asString (m : Value) : CResult String :=
  match m with
  | .str s => .ok s
  | _ => .error (.Value "not a string")

/-- A text chunk is codec-safe when it contains no double quote, the one
structural character of the text encoding. -/
def strOk (s : String) : Bool :=
  s.data.all (· ≠ '"')

mutual

/-- Well-formedness of a value for the text codec: every string (and every
key) is codec-safe. -/
def Value.wf : Value → Bool
  | .null => true
  | .str s => strOk s
  | .arr xs => wfItems xs
  | .map ps => wfPairs ps

/-- Well-formedness of a list of values. -/
def wfItems : List Value → Bool
  | [] => true
  | x :: xs => x.wf && wfItems xs

/-- Well-formedness of a list of fields. -/
def wfPairs : List (String × Value) → Bool
  | [] => true
  | (k, v) :: ps => strOk k && v.wf && wfPairs ps

end

mutual

/-- Modelled from the spec (§6): the deterministic, insertion-order
preserving text body codec, encoding direction.  The crate's concrete body
codecs are external collaborators specified only by their contract
(determinism, order preservation, exact byte accounting); this canonical
compact JSON-form printer realizes that contract. -/
def dumps : Value → List Char
  | .null => ['n', 'u', 'l', 'l']
  | .str s => '"' :: s.data ++ ['"']
  | .arr xs => '[' :: dumpsItems xs ++ [']']
  | .map ps => '{' :: dumpsPairs ps ++ ['}']

/-- Encoding of array elements (comma separated). -/
def dumpsItems : List Value → List Char
  | [] => []
  | [x] => dumps x
  | x :: xs => dumps x ++ ',' :: dumpsItems xs

/-- Encoding of map fields (comma separated `"key":value` pairs, insertion
order preserved). -/
def dumpsPairs : List (String × Value) → List Char
  | [] => []
  | [(k, v)] => '"' :: k.data ++ '"' :: ':' :: dumps v
  | (k, v) :: ps => '"' :: k.data ++ '"' :: ':' :: dumps v ++ ',' :: dumpsPairs ps

end

/-- Lowercase hexadecimal digit character for a value below 16. -/
def hexChar (n : Nat) : Char :=
  "0123456789abcdef".data.getD n '0'

/-- Value of a lowercase hexadecimal digit character, none otherwise. -/
def hexVal (c : Char) : Option Nat :=
  match c with
  | '0' => .some 0 | '1' => .some 1 | '2' => .some 2 | '3' => .some 3
  | '4' => .some 4 | '5' => .some 5 | '6' => .some 6 | '7' => .some 7
  | '8' => .some 8 | '9' => .some 9 | 'a' => .some 10 | 'b' => .some 11
  | 'c' => .some 12 | 'd' => .some 13 | 'e' => .some 14 | 'f' => .some 15
  | _ => .none

/-- Fixed-width (six digit) lowercase hexadecimal rendering of a size. -/
def hex6 (n : Nat) : List Char :=
  [hexChar (n / 16 ^ 5 % 16), hexChar (n / 16 ^ 4 % 16), hexChar (n / 16 ^ 3 % 16),
   hexChar (n / 16 ^ 2 % 16), hexChar (n / 16 % 16), hexChar (n % 16)]

/-- Value of a six-digit lowercase hexadecimal string. -/
def unhex6 (cs : List Char) : Option Nat :=
  match cs with
  | [a, b, c, d, e, f] => do
    let a ← hexVal a
    let b ← hexVal b
    let c ← hexVal c
    let d ← hexVal d
    let e ← hexVal e
    let f ← hexVal f
    pure (a * 16 ^ 5 + b * 16 ^ 4 + c * 16 ^ 3 + d * 16 ^ 2 + e * 16 + f)
  | _ => none

/-- Decoded version-string token (spec §3 `VersionToken`): protocol
identity, major and minor version, serialization kind, declared size. -/
structure VersionToken where
  ident : String
  major : Nat
  minor : Nat
  kind : String
  size : Nat
deriving DecidableEq, Repr

/-- Whether a kind tag is one of the recognized serialization kinds. -/
def kindOk (k : String) : Bool :=
  k = Serialage.JSON || k = Serialage.CBOR || k = Serialage.MGPK

/-- Modelled from the spec (§4.2, §6): version-string encoding.  A
fixed-width (17 character) token `<ident:4><major:1><minor:1><kind:4>
<size:6 lowercase hex><'_'>`; the fields are validated so that the token
width never varies (fails `MalformedVersionString` on an identity that is
not four uppercase letters, a version digit of 16 or more, or a size that
does not fit in six hexadecimal digits, and `UnsupportedKind` on an
unrecognized kind tag). -/
def versify (ident : String) (major minor : Nat) (kind : String) (size : Nat) :
    CResult String :=
  if ¬ (ident.length = 4 ∧ ident.data.all Char.isUpper) then
    .error .MalformedVersionString
  else if ¬ kindOk kind then
    .error .UnsupportedKind
  else if ¬ (major < 16 ∧ minor < 16 ∧ size < 16 ^ 6) then
    .error .MalformedVersionString
  else
    .ok (String.mk (ident.data ++ hexChar major :: hexChar minor :: kind.data ++
      hex6 size ++ ['_']))

/-- Modelled from the spec (§4.2): version-string decoding.  Accepts exactly
the 17-character grammar produced by `versify`; fails
`MalformedVersionString` when the grammar does not match and
`UnsupportedKind` when the kind tag is not recognized. -/
def deversify (cs : List Char) : CResult VersionToken :=
  match cs with
  | [i1, i2, i3, i4, mj, mn, k1, k2, k3, k4, s1, s2, s3, s4, s5, s6, t] =>
    if ¬ ([i1, i2, i3, i4].all Char.isUpper ∧ t = '_') then
      .error .MalformedVersionString
    else
      match hexVal mj, hexVal mn, unhex6 [s1, s2, s3, s4, s5, s6] with
      | some major, some minor, some size =>
        if kindOk (String.mk [k1, k2, k3, k4]) then
          .ok ⟨String.mk [i1, i2, i3, i4], major, minor, String.mk [k1, k2, k3, k4], size⟩
        else
          .error .UnsupportedKind
      | _, _, _ => .error .MalformedVersionString
  | _ => .error .MalformedVersionString

/-- Modelled from the spec (§4.2, §6): locate and decode the version-string
token inside a raw buffer.  The token is the value of the first field of
every record, so in the text encoding it occupies the fixed offset 6 (after
the six characters of the opening and the first key) with fixed width 17. -/
def sniff (b : List Char) : CResult VersionToken :=
  if b.take 6 = ['{', '"', 'v', '"', ':', '"'] then
    deversify ((b.drop 6).take 17)
  else
    .error .MalformedVersionString

/-- Modelled from the spec (§6): body codec dispatch, encoding direction.
The text codec is realized by `dumps`; the two binary codecs are external
collaborators that are not among the provided sources, so records of those
kinds are outside the modelled codec's domain (`CodecFailure`); anything
else is an unsupported kind. -/
def serializeKed (kind : String) (v : Value) : CResult (List Char) :=
  if kind = Serialage.JSON then .ok (dumps v)
  else if kind = Serialage.CBOR ∨ kind = Serialage.MGPK then .error .CodecFailure
  else .error .UnsupportedKind

/-- The 64 characters of the url-safe base-64 alphabet used by the
self-describing digest encoding. -/
def b64Char (n : Nat) : Char :=
  "ABCDEFGHIJKLMNOPQRSTUVWXYZabcdefghijklmnopqrstuvwxyz0123456789-_".data.getD n 'A'

/-- A deterministic accumulator over the serialized bytes, the content core
of the modelled digest primitive. -/
def strHash (s : List Char) : Nat :=
  s.foldl (fun a c => (a * 131 + c.toNat + 1) % 1048576) 7

/-- Modelled from the spec (§4.4, §6): the self-describing encoded digest of
a serialization under a primitive code: the code prefix followed by url-safe
characters, `fs` characters in total.  The cryptographic digest primitive
itself is an external collaborator that is not among the provided sources;
what the layer relies on — determinism and fixed encoded width per code — is
what this model provides. -/
def qb64Digest (code : String) (fs : Nat) (s : List Char) : String :=
  String.mk (code.data ++ (List.range (fs - code.length)).map
    (fun i => b64Char ((strHash s * (i + 1) + i * i) % 64)))

/-- A placeholder of exactly `fs` filler characters (spec §4.4 step 2). -/
def placeholder (fs : Nat) : String :=
  String.mk (List.replicate fs '#')

/-- Saider (spec §3): the self-addressing identifier holder — digest code
and self-describing encoded digest value. -/
structure Saider where
  code : String
  qb64 : String
deriving DecidableEq, Repr

/-- Modelled from the spec (§4.4): the one-pass placeholder algorithm
`saidify`.  Look up the fixed encoded width of the code; write a placeholder
of that width into the target field; if the KED carries a version-string
field, re-derive its size subfield from the serialization with the
placeholder in place (serializing via the kind the version string declares);
serialize; digest; substitute the encoded digest for the placeholder.  The
argument order mirrors the crate's `Saider::saidify(sad, code, kind, label,
versioned)` call sites. -/
def Saider.saidify (sad : Value) (code : Option String) (kind : Option String)
    (label : Option String) (versioned : Option Bool) :
    CResult (Saider × Value) := do
  let code := code.getD Codex.Blake3_256
  let label := label.getD Ids.d
  let versioned := versioned.getD true
  let fs ← match Matter.sizage code with
    | some fs => pure fs
    | none => throw .UnknownCode
  let ked1 ← sad.put label (.str (placeholder fs))
  let (kindUsed, ked2) ←
    match versioned, ked1.lookup Ids.v with
    | true, some vv => do
      let vstr ← vv.asString
      let tk ← deversify vstr.data
      let s1 ← serializeKed tk.kind ked1
      let vs ← versify tk.ident tk.major tk.minor tk.kind s1.length
      let ked2 ← ked1.put Ids.v (.str vs)
      pure (tk.kind, ked2)
    | _, _ => pure (kind.getD Serialage.JSON, ked1)
  let s2 ← serializeKed kindUsed ked2
  let said := qb64Digest code fs s2
  let ked3 ← ked2.put label (.str said)
  pure (⟨code, said⟩, ked3)

/-- Modelled from the spec (§4.4): digest verification.  Recompute the
one-pass algorithm on the KED (the target field is blanked to the
placeholder by `saidify` itself) and compare the freshly computed digest
with the value originally stored at the target field; a missing or
non-string field is a verification failure, not an exception. -/
def Saider.verify (ked : Value) (code : String) : CResult Bool := do
  match ked.lookup Ids.d with
  | some (.str d0) => do
    let (sd, _) ← Saider.saidify ked (some code) none none none
    pure (sd.qb64 = d0)
  | _ => pure false

/-- Scan the body of a string literal up to the closing quote, returning the
content and the remainder of the input. -/
def parseStrBody : List Char → Option (List Char × List Char)
  | [] => none
  | c :: r =>
    if c = '"' then some ([], r)
    else (parseStrBody r).map (fun p => (c :: p.1, p.2))

mutual

/-- Modelled from the spec (§6): the text body codec, decoding direction —
a strict recursive-descent reader of exactly the compact grammar emitted by
`dumps` (fuel-indexed to make the recursion structural). -/
def parseV : Nat → List Char → Option (Value × List Char)
  | 0, _ => none
  | _ + 1, '"' :: r => (parseStrBody r).map (fun p => (.str (String.mk p.1), p.2))
  | _ + 1, 'n' :: 'u' :: 'l' :: 'l' :: r => some (.null, r)
  | f + 1, '[' :: r =>
    match r with
    | ']' :: r2 => some (.arr [], r2)
    | _ => (parseItems f r).map (fun p => (.arr p.1, p.2))
  | f + 1, '{' :: r =>
    match r with
    | '}' :: r2 => some (.map [], r2)
    | _ => (parsePairs f r).map (fun p => (.map p.1, p.2))
  | _ + 1, _ => none

/-- Reader of one or more comma-separated array elements up to the closing
bracket. -/
def parseItems : Nat → List Char → Option (List Value × List Char)
  | 0, _ => none
  | f + 1, s => do
    let (v, r) ← parseV f s
    match r with
    | ',' :: r2 => do
      let (vs, r3) ← parseItems f r2
      pure (v :: vs, r3)
    | ']' :: r2 => pure ([v], r2)
    | _ => none

/-- Reader of one or more comma-separated `"key":value` fields up to the
closing brace. -/
def parsePairs : Nat → List Char → Option (List (String × Value) × List Char)
  | 0, _ => none
  | f + 1, '"' :: s => do
    let (k, r) ← parseStrBody s
    match r with
    | ':' :: r2 => do
      let (v, r3) ← parseV f r2
      match r3 with
      | ',' :: r4 => do
        let (ps, r5) ← parsePairs f r4
        pure ((String.mk k, v) :: ps, r5)
      | '}' :: r4 => pure ([(String.mk k, v)], r4)
      | _ => none
    | _ => none
  | _ + 1, _ => none

end

/-- Full-input decode: the whole buffer must be consumed (`CodecFailure`
otherwise). -/
def loads (b : List Char) : CResult Value :=
  match parseV (b.length + 1) b with
  | some (v, []) => .ok v
  | _ => .error .CodecFailure

/-- Modelled from the spec (§6): body codec dispatch, decoding direction
(mirror of `serializeKed`). -/
def deserializeKed (kind : String) (b : List Char) : CResult Value :=
  if kind = Serialage.JSON then loads b
  else if kind = Serialage.CBOR ∨ kind = Serialage.MGPK then .error .CodecFailure
  else .error .UnsupportedKind

/-- The generic self-describing record state (spec §3 `Sadder record`):
code, raw bytes, KED, protocol identity, serialization kind, declared size,
protocol version, embedded Saider.  The declared size is a `u32` in the
crate; the version-string codec bounds it below `16 ^ 6 < 2 ^ 32`, so `Nat`
carries it faithfully. -/
structure SerderACDC where
  code : String
  raw : List Char
  ked : Value
  ident : String
  kind : String
  size : Nat
  version : Version
  saider : Saider
deriving Repr

/-- Modelled from the spec (§4.3 `from_raw`): decode the version token from
the buffer; fail `Incomplete` if the buffer is shorter than the declared
size; slice exactly the declared size; decode the slice via the body codec
named by the kind; verify the embedded digest field and fail
`DigestMismatch` otherwise; store all fields. -/
def Sadder.fromRaw (code : String) (b : List Char) : CResult SerderACDC := do
  let tk ← sniff b
  if b.length < tk.size then throw .Incomplete
  let slice := b.take tk.size
  let ked ← deserializeKed tk.kind slice
  let d0 ← match ked.lookup Ids.d with
    | some (.str d0) => pure d0
    | _ => throw .DigestMismatch
  let ok ← Saider.verify ked code
  if ¬ ok then throw .DigestMismatch
  pure ⟨code, slice, ked, tk.ident, tk.kind, tk.size, ⟨tk.major, tk.minor⟩, ⟨code, d0⟩⟩

/-- Modelled from the spec (§4.3 `from_ked`): run `saidify` over the KED,
producing a finalized KED whose digest field and version-string size
subfield are mutually consistent; serialize the finalized KED via the body
codec; store the fields carried by the (rewritten) version string. -/
def Sadder.fromKed (ked : Value) (code : String) (kind : Option String) :
    CResult SerderACDC := do
  let (saider, ked') ← Saider.saidify ked (some code) kind none none
  let vstr ← match ked'.lookup Ids.v with
    | some (.str s) => pure s
    | _ => throw .MalformedVersionString
  let tk ← deversify vstr.data
  let raw ← serializeKed tk.kind ked'
  pure ⟨code, raw, ked', tk.ident, tk.kind, tk.size, ⟨tk.major, tk.minor⟩, saider⟩

/-- Modelled from the spec (§4.3, §6): the generic constructor behind the
crate's `Sadder::new(code, raw, kind, ked, sad)` — raw-first decode when a
buffer is given, KED-first encode when a map is given, a plain copy when an
existing record is given, and an error otherwise. -/
def Sadder.new (code : Option String) (raw : Option (List Char)) (kind : Option String)
    (ked : Option Value) (sad : Option SerderACDC) : CResult SerderACDC :=
  let code := code.getD Codex.Blake3_256
  match raw with
  | some b => Sadder.fromRaw code b
  | none =>
    match ked with
    | some k => Sadder.fromKed k code kind
    | none =>
      match sad with
      | some s => .ok s
      | none => .error (.Value "improper initialization")

/-- `validate_ident` (src/core/serder_acdc.rs lines 26–32): a SerderACDC
must carry the ACDC protocol identity. -/
def validate_ident (ident : String) : CResult Unit :=
  if ident ≠ Identage.ACDC then
    .error (.Value "SerderACDC must be an ACDC")
  else
    .ok ()

/-- Modelled from the spec: the spec's error taxonomy names the
identity-gating failure `UnexpectedIdentity`; the source realizes it as the
`Error::Value` produced by `validate_ident`. -/
def Error.unexpectedIdentity : Error :=
  .Value "SerderACDC must be an ACDC"

/-- `SerderACDC::new` (src lines 35–47): default the code to Blake3-256,
run the generic constructor, then gate on the ACDC identity. -/
def SerderACDC.new (code : Option String) (raw : Option (List Char))
    (kind : Option String) (ked : Option Value) (sad : Option SerderACDC) :
    CResult SerderACDC := do
  let code := code.getD Codex.Blake3_256
  let serder_acdc ← Sadder.new (some code) raw kind ked sad
  validate_ident serder_acdc.ident
  pure serder_acdc

/-- `SerderACDC::new_with_ked` (src lines 49–51). -/
def SerderACDC.new_with_ked (ked : Value) (code : Option String) (kind : Option String) :
    CResult SerderACDC :=
  SerderACDC.new code none kind (some ked) none

/-- `SerderACDC::new_with_raw` (src lines 53–55). -/
def SerderACDC.new_with_raw (raw : List Char) : CResult SerderACDC :=
  SerderACDC.new none (some raw) none none none

/-- `SerderACDC::crd` (src lines 57–59). -/
def SerderACDC.crd (r : SerderACDC) : Value :=
  r.ked

/-- `SerderACDC::issuer` (src lines 61–63): `self.ked()[Ids::i].to_string()`. -/
def SerderACDC.issuer (r : SerderACDC) : CResult String :=
  (r.ked.atD Ids.i).asString

/-- `SerderACDC::schema` (src lines 65–67): `self.ked()[Ids::s].to_string()`. -/
def SerderACDC.schema (r : SerderACDC) : CResult String :=
  (r.ked.atD Ids.s).asString

/-- `SerderACDC::subject` (src lines 69–71): `self.ked()[Ids::a].clone()`. -/
def SerderACDC.subject (r : SerderACDC) : Value :=
  r.ked.atD Ids.a

/-- `SerderACDC::status` (src lines 73–81): `Some` of the `ri` field's
string value when the key is present, `None` otherwise. -/
def SerderACDC.status (r : SerderACDC) : CResult (Option String) := do
  let m ← r.ked.toMap
  match lookupPairs "ri" m with
  | some v => do
    let s ← v.asString
    pure (some s)
  | none => pure none

/-- `SerderACDC::chains` (src lines 83–91): the `e` field's value when the
key is present, the empty map otherwise. -/
def SerderACDC.chains (r : SerderACDC) : CResult Value := do
  let m ← r.ked.toMap
  match lookupPairs "e" m with
  | some v => pure v
  | none => pure (.map [])

theorem cbind_ok {α β : Type} (a : α) (f : α → CResult β) :
    (Except.ok a >>= f) = f a := rfl

theorem cbind_err {α β : Type} (e : Error) (f : α → CResult β) :
    ((Except.error e : CResult α) >>= f) = .error e := rfl

theorem putPairs_ne_nil (k : String) (v : Value) (ps : List (String × Value)) :
    putPairs k v ps ≠ [] := by
  cases ps with
  | nil => simp [putPairs]
  | cons p tl =>
    obtain ⟨k', v'⟩ := p
    by_cases h : k' = k <;> simp [putPairs, h]

theorem lookupPairs_put_self {k : String} {v : Value} {ps : List (String × Value)}
    (h : lookupPairs k ps = some v) : putPairs k v ps = ps := by
  induction ps with
  | nil => simp [lookupPairs] at h
  | cons p tl ih =>
    obtain ⟨k', v'⟩ := p
    by_cases hk : k' = k
    · simp [lookupPairs, hk] at h
      simp [putPairs, hk, h]
    · simp [lookupPairs, hk] at h
      simp [putPairs, hk, ih h]

theorem putPairs_collapse (k : String) (a b : Value) (ps : List (String × Value)) :
    putPairs k a (putPairs k b ps) = putPairs k a ps := by
  induction ps with
  | nil => simp [putPairs]
  | cons p tl ih =>
    obtain ⟨k', v'⟩ := p
    by_cases hk : k' = k <;> simp [putPairs, hk, ih]

theorem putPairs_comm {k k' : String} (hk : k' ≠ k) (a b : Value)
    {ps : List (String × Value)} (hin : (lookupPairs k ps).isSome) :
    putPairs k a (putPairs k' b ps) = putPairs k' b (putPairs k a ps) := by
  induction ps with
  | nil => simp [lookupPairs] at hin
  | cons p tl ih =>
    obtain ⟨k0, v0⟩ := p
    by_cases h1 : k0 = k'
    · subst h1
      simp [putPairs, hk, Ne.symm hk]
    · by_cases h2 : k0 = k
      · subst h2
        simp [putPairs, h1, hk, Ne.symm hk]
      · simp [lookupPairs, h2] at hin
        simp [putPairs, h1, h2, ih hin]

theorem lookupPairs_putPairs_self (k : String) (v : Value) (ps : List (String × Value)) :
    lookupPairs k (putPairs k v ps) = some v := by
  induction ps with
  | nil => simp [putPairs, lookupPairs]
  | cons p tl ih =>
    obtain ⟨k', v'⟩ := p
    by_cases hk : k' = k <;> simp [putPairs, lookupPairs, hk, ih]

theorem lookupPairs_putPairs_ne {k k' : String} (hk : k' ≠ k) (v : Value)
    (ps : List (String × Value)) :
    lookupPairs k (putPairs k' v ps) = lookupPairs k ps := by
  induction ps with
  | nil => simp [putPairs, lookupPairs, hk]
  | cons p tl ih =>
    obtain ⟨k0, v0⟩ := p
    by_cases h1 : k0 = k'
    · subst h1
      simp [putPairs, lookupPairs, hk]
    · by_cases h2 : k0 = k <;>
        simp [putPairs, lookupPairs, h1, h2, hk, Ne.symm hk, ih]

theorem wfPairs_putPairs {k : String} {v : Value} {ps : List (String × Value)}
    (hps : wfPairs ps = true) (hk : strOk k = true) (hv : v.wf = true) :
    wfPairs (putPairs k v ps) = true := by
  induction ps with
  | nil => simp [putPairs, wfPairs, hk, hv]
  | cons p tl ih =>
    obtain ⟨k', v'⟩ := p
    simp only [wfPairs, Bool.and_eq_true] at hps
    obtain ⟨⟨ha, hb⟩, hc⟩ := hps
    by_cases h : k' = k
    · simp [putPairs, h, wfPairs, hk, hv, hc]
    · simp [putPairs, h, wfPairs, ha, hb, ih hc]

/-- The encoded chunk one field contributes to `dumpsPairs`. -/
def pairChunk (p : String × Value) : List Char :=
  '"' :: p.1.data ++ '"' :: ':' :: dumps p.2

theorem dumpsPairs_cons (p : String × Value) (ps : List (String × Value)) :
    dumpsPairs (p :: ps) =
      pairChunk p ++ (match ps with | [] => [] | _ :: _ => ',' :: dumpsPairs ps) := by
  obtain ⟨k, v⟩ := p
  cases ps with
  | nil => simp [dumpsPairs, pairChunk]
  | cons q qs => simp [dumpsPairs, pairChunk]

theorem dumpsPairs_len_cons (p : String × Value) {ps : List (String × Value)}
    (h : ps ≠ []) :
    (dumpsPairs (p :: ps)).length = (pairChunk p).length + 1 + (dumpsPairs ps).length := by
  obtain ⟨k, v⟩ := p
  cases ps with
  | nil => exact absurd rfl h
  | cons q qs =>
    simp [dumpsPairs, pairChunk]
    omega

theorem dumpsPairs_putPairs_len {k : String} {c : String} {ps : List (String × Value)}
    (h : lookupPairs k ps = some (.str c)) (a : String) :
    (dumpsPairs (putPairs k (.str a) ps)).length + c.data.length =
      (dumpsPairs ps).length + a.data.length := by
  induction ps with
  | nil => simp [lookupPairs] at h
  | cons p tl ih =>
    obtain ⟨k0, v0⟩ := p
    by_cases hk : k0 = k
    · rw [lookupPairs, if_pos hk] at h
      have hv : v0 = Value.str c := Option.some.inj h
      subst hv
      subst hk
      rw [putPairs, if_pos rfl]
      rw [dumpsPairs_cons, dumpsPairs_cons]
      simp [pairChunk, dumps]
      omega
    · rw [lookupPairs, if_neg hk] at h
      have htl : tl ≠ [] := by
        intro he
        rw [he] at h
        simp [lookupPairs] at h
      rw [putPairs, if_neg hk]
      rw [dumpsPairs_len_cons _ (putPairs_ne_nil _ _ _), dumpsPairs_len_cons _ htl]
      have ihh := ih h
      omega

theorem hexVal_hexChar {d : Nat} (h : d < 16) : hexVal (hexChar d) = some d := by
  interval_cases d <;> rfl

theorem hexVal_lt {c : Char} {d : Nat} (h : hexVal c = some d) : d < 16 := by
  unfold hexVal at h
  split at h <;> first
  | (have h2 := Option.some.inj h
     omega)
  | simp at h

theorem hexChar_hexVal {c : Char} {d : Nat} (h : hexVal c = some d) : hexChar d = c := by
  unfold hexVal at h
  split at h <;> first
  | (have h2 := Option.some.inj h
     subst h2
     rfl)
  | simp at h

theorem unhex6_hex6 {n : Nat} (h : n < 16 ^ 6) : unhex6 (hex6 n) = some n := by
  have h5 : n / 16 ^ 5 % 16 < 16 := Nat.mod_lt _ (by norm_num)
  have h4 : n / 16 ^ 4 % 16 < 16 := Nat.mod_lt _ (by norm_num)
  have h3 : n / 16 ^ 3 % 16 < 16 := Nat.mod_lt _ (by norm_num)
  have h2 : n / 16 ^ 2 % 16 < 16 := Nat.mod_lt _ (by norm_num)
  have h1 : n / 16 % 16 < 16 := Nat.mod_lt _ (by norm_num)
  have h0 : n % 16 < 16 := Nat.mod_lt _ (by norm_num)
  simp only [hex6, unhex6, hexVal_hexChar h5, hexVal_hexChar h4, hexVal_hexChar h3,
    hexVal_hexChar h2, hexVal_hexChar h1, hexVal_hexChar h0, Option.bind_some]
  simp only [Option.pure_def, Option.bind_eq_bind, Option.some_bind, Option.some.injEq]
  omega

theorem unhex6_lt {cs : List Char} {n : Nat} (h : unhex6 cs = some n) : n < 16 ^ 6 := by
  unfold unhex6 at h
  split at h
  case _ a b c d e f =>
    cases ha : hexVal a <;> cases hb : hexVal b <;> cases hc : hexVal c <;>
      cases hd : hexVal d <;> cases he : hexVal e <;> cases hf : hexVal f <;>
      simp_all
    have := hexVal_lt ha
    have := hexVal_lt hb
    have := hexVal_lt hc
    have := hexVal_lt hd
    have := hexVal_lt he
    have := hexVal_lt hf
    omega
  case _ => simp at h

theorem hex6_unhex6 {cs : List Char} {n : Nat} (h : unhex6 cs = some n) :
    hex6 n = cs := by
  unfold unhex6 at h
  split at h
  case _ a b c d e f =>
    cases ha : hexVal a <;> cases hb : hexVal b <;> cases hc : hexVal c <;>
      cases hd : hexVal d <;> cases he : hexVal e <;> cases hf : hexVal f <;>
      simp_all
    rename_i va vb vc vd ve vf
    have la := hexVal_lt ha
    have lb := hexVal_lt hb
    have lc := hexVal_lt hc
    have ld := hexVal_lt hd
    have le := hexVal_lt he
    have lf := hexVal_lt hf
    have e5 : n / 16 ^ 5 % 16 = va := by omega
    have e4 : n / 16 ^ 4 % 16 = vb := by omega
    have e3 : n / 16 ^ 3 % 16 = vc := by omega
    have e2 : n / 16 ^ 2 % 16 = vd := by omega
    have e1 : n / 16 % 16 = ve := by omega
    have e0 : n % 16 = vf := by omega
    simp only [hex6, e5, e4, e3, e2, e1, e0]
    simp [hexChar_hexVal ha, hexChar_hexVal hb, hexChar_hexVal hc,
      hexChar_hexVal hd, hexChar_hexVal he, hexChar_hexVal hf]
  case _ => simp at h

theorem list_len4 {l : List Char} (h : l.length = 4) :
    ∃ a b c d, l = [a, b, c, d] := by
  match l, h with
  | [a, b, c, d], _ => exact ⟨a, b, c, d, rfl⟩

theorem kindOk_cases {k : String} (h : kindOk k = true) :
    k = Serialage.JSON ∨ k = Serialage.CBOR ∨ k = Serialage.MGPK := by
  unfold kindOk at h
  simp only [Bool.or_eq_true, decide_eq_true_eq] at h
  tauto

theorem versify_deversify {ident : String} {mj mn : Nat} {kind : String} {sz : Nat}
    {vs : String} (h : versify ident mj mn kind sz = .ok vs) :
    deversify vs.data = .ok ⟨ident, mj, mn, kind, sz⟩ := by
  unfold versify at h
  split at h
  · simp at h
  split at h
  · simp at h
  split at h
  · simp at h
  rename_i hid hkind hnum
  obtain ⟨hlen, hupper⟩ := not_not.mp hid
  have hkind' : kindOk kind = true := not_not.mp hkind
  obtain ⟨hmj, hmn, hsz⟩ := not_not.mp hnum
  have hvs : vs = String.mk (ident.data ++ hexChar mj :: hexChar mn :: kind.data ++
      hex6 sz ++ ['_']) := by
    cases h
    rfl
  subst hvs
  have hdlen : ident.data.length = 4 := hlen
  obtain ⟨a, b, c, d, habcd⟩ := list_len4 hdlen
  have hup : a.isUpper ∧ b.isUpper ∧ c.isUpper ∧ d.isUpper := by
    rw [habcd] at hupper
    simpa using hupper
  have hident : ident = String.mk [a, b, c, d] := by
    cases ident
    simp at habcd
    rw [habcd]
  have hklen : kind.data.length = 4 := by
    rcases kindOk_cases hkind' with hk | hk | hk <;> subst hk <;> rfl
  obtain ⟨k1, k2, k3, k4, hkdata⟩ := list_len4 hklen
  have hkind2 : String.mk [k1, k2, k3, k4] = kind := by
    cases kind
    simp at hkdata
    rw [hkdata]
  show deversify (ident.data ++ hexChar mj :: hexChar mn :: kind.data ++
      hex6 sz ++ ['_']) = _
  rw [habcd, hkdata]
  have hun : unhex6 [hexChar (sz / 16 ^ 5 % 16), hexChar (sz / 16 ^ 4 % 16),
      hexChar (sz / 16 ^ 3 % 16), hexChar (sz / 16 ^ 2 % 16),
      hexChar (sz / 16 % 16), hexChar (sz % 16)] = some sz := by
    have := unhex6_hex6 hsz
    simpa [hex6] using this
  simp only [hex6, List.cons_append, List.nil_append, List.append_assoc]
  simp only [deversify]
  rw [hexVal_hexChar hmj, hexVal_hexChar hmn, hun]
  simp [hup.1, hup.2.1, hup.2.2.1, hup.2.2.2, hkind2, hkind', ← hident]

theorem deversify_versify {cs : List Char} {tk : VersionToken}
    (h : deversify cs = .ok tk) :
    versify tk.ident tk.major tk.minor tk.kind tk.size = .ok (String.mk cs) := by
  unfold deversify at h
  split at h
  case _ i1 i2 i3 i4 mj mn k1 k2 k3 k4 s1 s2 s3 s4 s5 s6 t =>
    split at h
    · simp at h
    rename_i hcond
    obtain ⟨hupper, ht⟩ := not_not.mp hcond
    split at h
    case _ major minor size hmj hmn hsz =>
      split at h
      case isTrue hkOk =>
        have htk : tk = ⟨String.mk [i1, i2, i3, i4], major, minor,
            String.mk [k1, k2, k3, k4], size⟩ := by
          cases h
          rfl
        subst htk
        unfold versify
        rw [if_neg (not_not_intro ⟨rfl, hupper⟩)]
        rw [if_neg (not_not_intro hkOk)]
        rw [if_neg (not_not_intro ⟨hexVal_lt hmj, hexVal_lt hmn, unhex6_lt hsz⟩)]
        rw [hexChar_hexVal hmj, hexChar_hexVal hmn, hex6_unhex6 hsz]
        subst ht
        rfl
      case isFalse => simp at h
    case _ => simp at h
  case _ => simp at h

theorem dumpsItems_cons (x : Value) (xs : List Value) :
    dumpsItems (x :: xs) =
      dumps x ++ (match xs with | [] => [] | _ :: _ => ',' :: dumpsItems xs) := by
  cases xs with
  | nil => simp [dumpsItems]
  | cons y ys => simp [dumpsItems]

theorem parseStrBody_sound {cs s r : List Char} (h : parseStrBody cs = some (s, r)) :
    cs = s ++ '"' :: r ∧ s.all (· ≠ '"') = true := by
  induction cs generalizing s r with
  | nil => simp [parseStrBody] at h
  | cons c cs' ih =>
    by_cases hc : c = '"'
    · subst hc
      simp [parseStrBody] at h
      obtain ⟨h1, h2⟩ := h
      subst h1
      subst h2
      simp
    · simp only [parseStrBody, if_neg hc] at h
      cases hp : parseStrBody cs' with
      | none => simp [hp] at h
      | some p =>
        obtain ⟨p1, p2⟩ := p
        simp [hp] at h
        obtain ⟨ih1, ih2⟩ := ih hp
        rw [← h.1, ← h.2]
        refine ⟨by rw [ih1]; simp, ?_⟩
        have ih2' : ∀ x ∈ p1, ¬x = '"' := by simpa using ih2
        simp only [List.all_cons, Bool.and_eq_true, decide_eq_true_eq]
        exact ⟨hc, by simpa using ih2'⟩

theorem parseStrBody_complete {s : List Char} (hs : s.all (· ≠ '"') = true)
    (r : List Char) : parseStrBody (s ++ '"' :: r) = some (s, r) := by
  induction s with
  | nil => simp [parseStrBody]
  | cons c s' ih =>
    simp only [List.all_cons, Bool.and_eq_true, decide_eq_true_eq] at hs
    simp [parseStrBody, hs.1, ih hs.2]

theorem parse_sound (f : Nat) :
    (∀ s v r, parseV f s = some (v, r) → s = dumps v ++ r ∧ v.wf = true) ∧
    (∀ s vs r, parseItems f s = some (vs, r) →
      s = dumpsItems vs ++ ']' :: r ∧ vs ≠ [] ∧ wfItems vs = true) ∧
    (∀ s ps r, parsePairs f s = some (ps, r) →
      s = dumpsPairs ps ++ '}' :: r ∧ ps ≠ [] ∧ wfPairs ps = true) := by
  induction f with
  | zero =>
    refine ⟨?_, ?_, ?_⟩ <;> intro s x r h <;>
      simp [parseV, parseItems, parsePairs] at h
  | succ f ih =>
    obtain ⟨ihV, ihI, ihP⟩ := ih
    refine ⟨?_, ?_, ?_⟩
    · intro s v r h
      have h2 : parseV (Nat.succ f) s = some (v, r) := h
      unfold parseV at h2
      split at h2
      · simp at h2
      · rename_i rest heq
        obtain rfl := Nat.succ.inj heq
        cases hp : parseStrBody rest with
        | none => rw [hp] at h2; simp at h2
        | some p =>
          obtain ⟨p1, p2⟩ := p
          rw [hp] at h2
          simp only [Option.map_some'] at h2
          obtain ⟨h1, hr⟩ := Prod.mk.inj (Option.some.inj h2)
          subst h1
          subst hr
          obtain ⟨he, hq⟩ := parseStrBody_sound hp
          constructor
          · rw [he]
            simp [dumps]
          · simpa [Value.wf, strOk] using hq
      · rename_i rest heq
        obtain ⟨h1, hr⟩ := Prod.mk.inj (Option.some.inj h2)
        subst h1
        subst hr
        simp [dumps, Value.wf]
      · rename_i rest heq
        obtain rfl := Nat.succ.inj heq
        split at h2
        · rename_i r2
          obtain ⟨h1, hr⟩ := Prod.mk.inj (Option.some.inj h2)
          subst h1
          subst hr
          simp [dumps, dumpsItems, Value.wf, wfItems]
        · cases hi : parseItems f rest with
          | none => rw [hi] at h2; simp at h2
          | some q =>
            obtain ⟨vs, r3⟩ := q
            rw [hi] at h2
            simp only [Option.map_some'] at h2
            obtain ⟨h1, hr⟩ := Prod.mk.inj (Option.some.inj h2)
            subst h1
            subst hr
            obtain ⟨he, hne, hwf⟩ := ihI rest vs r3 hi
            constructor
            · rw [he]
              simp [dumps]
            · simpa [Value.wf] using hwf
      · rename_i rest heq
        obtain rfl := Nat.succ.inj heq
        split at h2
        · rename_i r2
          obtain ⟨h1, hr⟩ := Prod.mk.inj (Option.some.inj h2)
          subst h1
          subst hr
          simp [dumps, dumpsPairs, Value.wf, wfPairs]
        · cases hi : parsePairs f rest with
          | none => rw [hi] at h2; simp at h2
          | some q =>
            obtain ⟨ps, r3⟩ := q
            rw [hi] at h2
            simp only [Option.map_some'] at h2
            obtain ⟨h1, hr⟩ := Prod.mk.inj (Option.some.inj h2)
            subst h1
            subst hr
            obtain ⟨he, hne, hwf⟩ := ihP rest ps r3 hi
            constructor
            · rw [he]
              simp [dumps]
            · simpa [Value.wf] using hwf
      · simp at h2
    · intro s vs r h
      unfold parseItems at h
      cases hv : parseV f s with
      | none => rw [hv] at h; simp at h
      | some q =>
        obtain ⟨v, r1⟩ := q
        rw [hv] at h
        simp only [Option.pure_def, Option.bind_eq_bind, Option.some_bind] at h
        obtain ⟨he1, hwfv⟩ := ihV s v r1 hv
        split at h
        · rename_i r2
          cases hi : parseItems f r2 with
          | none => rw [hi] at h; simp at h
          | some q2 =>
            obtain ⟨vs2, r3⟩ := q2
            rw [hi] at h
            simp only [Option.some_bind] at h
            obtain ⟨h1, hr⟩ := Prod.mk.inj (Option.some.inj h)
            subst h1
            subst hr
            obtain ⟨he2, hne2, hwf2⟩ := ihI r2 vs2 r3 hi
            obtain ⟨y, ys, hys⟩ : ∃ y ys, vs2 = y :: ys := by
              cases vs2 with
              | nil => exact absurd rfl hne2
              | cons y ys => exact ⟨y, ys, rfl⟩
            subst hys
            refine ⟨?_, by simp, ?_⟩
            · rw [he1, he2]
              rw [show dumpsItems (v :: y :: ys) =
                dumps v ++ ',' :: dumpsItems (y :: ys) from rfl]
              simp
            · have hw := hwf2
              simp only [wfItems, Bool.and_eq_true] at hw ⊢
              exact ⟨hwfv, hw⟩
        · rename_i r2
          obtain ⟨h1, hr⟩ := Prod.mk.inj (Option.some.inj h)
          subst h1
          subst hr
          refine ⟨?_, by simp, by simp [wfItems, hwfv]⟩
          rw [he1]
          simp [dumpsItems]
        · simp at h
    · intro s ps r h
      have h2 : parsePairs (Nat.succ f) s = some (ps, r) := h
      unfold parsePairs at h2
      split at h2
      · simp at h2
      · rename_i s1 heq
        obtain rfl := Nat.succ.inj heq
        cases hk : parseStrBody s1 with
        | none => rw [hk] at h2; simp at h2
        | some q =>
          obtain ⟨k, r1⟩ := q
          rw [hk] at h2
          simp only [Option.pure_def, Option.bind_eq_bind, Option.some_bind] at h2
          obtain ⟨hke, hkq⟩ := parseStrBody_sound hk
          split at h2
          · rename_i r2
            cases hv : parseV f r2 with
            | none => rw [hv] at h2; simp at h2
            | some q2 =>
              obtain ⟨v, r3⟩ := q2
              rw [hv] at h2
              simp only [Option.pure_def, Option.bind_eq_bind, Option.some_bind] at h2
              obtain ⟨he2, hwfv⟩ := ihV r2 v r3 hv
              split at h2
              · rename_i r4
                cases hp2 : parsePairs f r4 with
                | none => rw [hp2] at h2; simp at h2
                | some q3 =>
                  obtain ⟨ps2, r5⟩ := q3
                  rw [hp2] at h2
                  simp only [Option.some_bind] at h2
                  obtain ⟨h1, hr⟩ := Prod.mk.inj (Option.some.inj h2)
                  subst h1
                  subst hr
                  obtain ⟨he3, hne3, hwf3⟩ := ihP r4 ps2 r5 hp2
                  obtain ⟨y, ys, hys⟩ : ∃ y ys, ps2 = y :: ys := by
                    cases ps2 with
                    | nil => exact absurd rfl hne3
                    | cons y ys => exact ⟨y, ys, rfl⟩
                  subst hys
                  refine ⟨?_, by simp, ?_⟩
                  · rw [hke, he2, he3]
                    rw [show dumpsPairs ((String.mk k, v) :: y :: ys) =
                      '"' :: (String.mk k).data ++ '"' :: ':' :: dumps v ++
                        ',' :: dumpsPairs (y :: ys) from rfl]
                    simp
                  · have hw := hwf3
                    simp only [wfPairs, Bool.and_eq_true] at hw ⊢
                    exact ⟨⟨by simpa [strOk] using hkq, hwfv⟩, hw⟩
              · rename_i r4
                obtain ⟨h1, hr⟩ := Prod.mk.inj (Option.some.inj h2)
                subst h1
                subst hr
                refine ⟨?_, by simp, ?_⟩
                · rw [hke, he2]
                  simp [dumpsPairs]
                · simp only [wfPairs, Bool.and_eq_true]
                  exact ⟨⟨by simpa [strOk] using hkq, hwfv⟩, trivial⟩
              · simp at h2
          · simp at h2
      · simp at h2

theorem dumps_head (v : Value) : ∃ c cs, dumps v = c :: cs ∧ c ≠ ']' ∧ c ≠ '}' := by
  cases v with
  | null => exact ⟨'n', _, rfl, by decide, by decide⟩
  | str s => exact ⟨'"', _, rfl, by decide, by decide⟩
  | arr xs => exact ⟨'[', _, rfl, by decide, by decide⟩
  | map ps => exact ⟨'{', _, rfl, by decide, by decide⟩

theorem parseV_brack_cons (f : Nat) (c : Char) (cs : List Char) (hc : c ≠ ']') :
    parseV (f + 1) ('[' :: c :: cs) =
      (parseItems f (c :: cs)).map (fun p => (Value.arr p.1, p.2)) := by
  unfold parseV
  split
  · rename_i heq
    exact absurd heq (by omega)
  · rename_i heq
    simp at heq
  · rename_i heq
    simp at heq
  · rename_i n r heq1 heq2
    obtain rfl := Nat.succ.inj heq1
    obtain ⟨_, hr⟩ := List.cons.inj heq2
    subst hr
    split
    · rename_i r2 heq3
      obtain ⟨hc', _⟩ := List.cons.inj heq3
      exact absurd hc' hc
    · rfl
  · rename_i heq
    simp at heq
  · rename_i hq hn hb hbr
    exact (hb (c :: cs) rfl).elim

theorem parseV_brace_cons (f : Nat) (c : Char) (cs : List Char) (hc : c ≠ '}') :
    parseV (f + 1) ('{' :: c :: cs) =
      (parsePairs f (c :: cs)).map (fun p => (Value.map p.1, p.2)) := by
  unfold parseV
  split
  · rename_i heq
    exact absurd heq (by omega)
  · rename_i heq
    simp at heq
  · rename_i heq
    simp at heq
  · rename_i heq
    simp at heq
  · rename_i n r heq1 heq2
    obtain rfl := Nat.succ.inj heq1
    obtain ⟨_, hr⟩ := List.cons.inj heq2
    subst hr
    split
    · rename_i r2 heq3
      obtain ⟨hc', _⟩ := List.cons.inj heq3
      exact absurd hc' hc
    · rfl
  · rename_i hq hn hb hbr
    exact (hbr (c :: cs) rfl).elim

mutual

/-- Fuel sufficient for `parseV` to read back the encoding of a value. -/
def fuelV : Value → Nat
  | .null => 1
  | .str _ => 1
  | .arr [] => 1
  | .arr (x :: xs) => 1 + fuelItems (x :: xs)
  | .map [] => 1
  | .map (p :: ps) => 1 + fuelPairs (p :: ps)

/-- Fuel sufficient for `parseItems` on an encoded element list. -/
def fuelItems : List Value → Nat
  | [] => 1
  | [x] => 1 + fuelV x
  | x :: xs => 1 + max (fuelV x) (fuelItems xs)

/-- Fuel sufficient for `parsePairs` on an encoded field list. -/
def fuelPairs : List (String × Value) → Nat
  | [] => 1
  | [p] => 1 + fuelV p.2
  | p :: ps => 1 + max (fuelV p.2) (fuelPairs ps)

end

theorem parseV_quote (f : Nat) (cs : List Char) :
    parseV (f + 1) ('"' :: cs) =
      (parseStrBody cs).map (fun p => (Value.str (String.mk p.1), p.2)) := by
  unfold parseV
  split
  · rename_i heq
    exact absurd heq (by omega)
  · rename_i n r heq1 heq2
    obtain rfl := Nat.succ.inj heq1
    obtain ⟨_, hr⟩ := List.cons.inj heq2
    subst hr
    rfl
  · rename_i heq
    simp at heq
  · rename_i heq
    simp at heq
  · rename_i heq
    simp at heq
  · rename_i hq hn hb hbr
    exact (hq cs rfl).elim

theorem parseV_null (f : Nat) (cs : List Char) :
    parseV (f + 1) ('n' :: 'u' :: 'l' :: 'l' :: cs) = some (.null, cs) := by
  unfold parseV
  split
  · rename_i heq
    exact absurd heq (by omega)
  · rename_i heq
    simp at heq
  · rename_i n r heq1 heq2
    have hr : cs = r := by simpa using heq2
    subst hr
    rfl
  · rename_i heq
    simp at heq
  · rename_i heq
    simp at heq
  · rename_i hq hn hb hbr
    exact (hn cs rfl).elim

theorem parseV_arr_nil (f : Nat) (rest : List Char) :
    parseV (f + 1) ('[' :: ']' :: rest) = some (.arr [], rest) := by
  unfold parseV
  split
  · rename_i heq
    exact absurd heq (by omega)
  · rename_i heq
    simp at heq
  · rename_i heq
    simp at heq
  · rename_i n r heq1 heq2
    have hr : ']' :: rest = r := by simpa using heq2
    subst hr
    split
    · rename_i r2 heq3
      have h4 : rest = r2 := by simpa using heq3
      rw [← h4]
    · rename_i hno
      exact (hno rest rfl).elim
  · rename_i heq
    simp at heq
  · rename_i hq hn hb hbr
    exact (hb (']' :: rest) rfl).elim

theorem parseV_map_nil (f : Nat) (rest : List Char) :
    parseV (f + 1) ('{' :: '}' :: rest) = some (.map [], rest) := by
  unfold parseV
  split
  · rename_i heq
    exact absurd heq (by omega)
  · rename_i heq
    simp at heq
  · rename_i heq
    simp at heq
  · rename_i heq
    simp at heq
  · rename_i n r heq1 heq2
    have hr : '}' :: rest = r := by simpa using heq2
    subst hr
    split
    · rename_i r2 heq3
      have h4 : rest = r2 := by simpa using heq3
      rw [← h4]
    · rename_i hno
      exact (hno rest rfl).elim
  · rename_i hq hn hb hbr
    exact (hbr ('}' :: rest) rfl).elim

theorem parseItems_step_last {f : Nat} {s : List Char} {v : Value} {r2 : List Char}
    (hv : parseV f s = some (v, ']' :: r2)) :
    parseItems (f + 1) s = some ([v], r2) := by
  unfold parseItems
  rw [hv]
  simp only [Option.pure_def, Option.bind_eq_bind, Option.some_bind]

theorem parseItems_step_cons {f : Nat} {s : List Char} {v : Value} {r2 : List Char}
    {vs : List Value} {r3 : List Char} (hv : parseV f s = some (v, ',' :: r2))
    (hi : parseItems f r2 = some (vs, r3)) :
    parseItems (f + 1) s = some (v :: vs, r3) := by
  unfold parseItems
  rw [hv]
  simp only [Option.pure_def, Option.bind_eq_bind, Option.some_bind]
  rw [hi]
  simp only [Option.some_bind]

theorem parsePairs_step_last {f : Nat} {cs k r2 : List Char} {v : Value}
    {r4 : List Char} (hk : parseStrBody cs = some (k, ':' :: r2))
    (hv : parseV f r2 = some (v, '}' :: r4)) :
    parsePairs (f + 1) ('"' :: cs) = some ([(String.mk k, v)], r4) := by
  unfold parsePairs
  split
  · rename_i heq
    exact absurd heq (by omega)
  · rename_i n s1 heq1 heq2
    obtain rfl := Nat.succ.inj heq1
    obtain ⟨_, hs⟩ := List.cons.inj heq2
    subst hs
    rw [hk]
    simp only [Option.pure_def, Option.bind_eq_bind, Option.some_bind]
    rw [hv]
    simp only [Option.some_bind]
  · rename_i hq
    exact (hq cs rfl).elim

theorem parsePairs_step_cons {f : Nat} {cs k r2 : List Char} {v : Value}
    {r4 : List Char} {ps2 : List (String × Value)} {r5 : List Char}
    (hk : parseStrBody cs = some (k, ':' :: r2))
    (hv : parseV f r2 = some (v, ',' :: r4))
    (hp : parsePairs f r4 = some (ps2, r5)) :
    parsePairs (f + 1) ('"' :: cs) = some ((String.mk k, v) :: ps2, r5) := by
  unfold parsePairs
  split
  · rename_i heq
    exact absurd heq (by omega)
  · rename_i n s1 heq1 heq2
    obtain rfl := Nat.succ.inj heq1
    obtain ⟨_, hs⟩ := List.cons.inj heq2
    subst hs
    rw [hk]
    simp only [Option.pure_def, Option.bind_eq_bind, Option.some_bind]
    rw [hv]
    simp only [Option.some_bind]
    rw [hp]
    simp only [Option.some_bind]
  · rename_i hq
    exact (hq cs rfl).elim

theorem fuelV_pos (v : Value) : 1 ≤ fuelV v := by
  cases v with
  | null => simp [fuelV]
  | str s => simp [fuelV]
  | arr xs => cases xs <;> simp [fuelV]
  | map ps => cases ps <;> simp [fuelV]

theorem fuelItems_pos (vs : List Value) : 1 ≤ fuelItems vs := by
  cases vs with
  | nil => simp [fuelItems]
  | cons x xs => cases xs <;> simp [fuelItems]

theorem fuelPairs_pos (ps : List (String × Value)) : 1 ≤ fuelPairs ps := by
  cases ps with
  | nil => simp [fuelPairs]
  | cons p tl => cases tl <;> simp [fuelPairs]

theorem parse_complete (f : Nat) :
    (∀ v rest, v.wf = true → fuelV v ≤ f → parseV f (dumps v ++ rest) = some (v, rest)) ∧
    (∀ vs rest, vs ≠ [] → wfItems vs = true → fuelItems vs ≤ f →
      parseItems f (dumpsItems vs ++ ']' :: rest) = some (vs, rest)) ∧
    (∀ ps rest, ps ≠ [] → wfPairs ps = true → fuelPairs ps ≤ f →
      parsePairs f (dumpsPairs ps ++ '}' :: rest) = some (ps, rest)) := by
  induction f with
  | zero =>
    refine ⟨?_, ?_, ?_⟩
    · intro v rest _ hf
      have := fuelV_pos v
      omega
    · intro vs rest _ _ hf
      have := fuelItems_pos vs
      omega
    · intro ps rest _ _ hf
      have := fuelPairs_pos ps
      omega
  | succ f ih =>
    obtain ⟨ihV, ihI, ihP⟩ := ih
    refine ⟨?_, ?_, ?_⟩
    · intro v rest hwf hf
      cases v with
      | null =>
        rw [show dumps Value.null ++ rest = 'n' :: 'u' :: 'l' :: 'l' :: rest from rfl]
        exact parseV_null f rest
      | str s =>
        have hall : s.data.all (· ≠ '"') = true := by
          simpa [Value.wf, strOk] using hwf
        rw [show dumps (Value.str s) ++ rest = '"' :: (s.data ++ '"' :: rest) by
          simp [dumps]]
        rw [parseV_quote, parseStrBody_complete hall rest]
        cases s
        simp
      | arr xs =>
        cases xs with
        | nil =>
          rw [show dumps (Value.arr []) ++ rest = '[' :: ']' :: rest from rfl]
          exact parseV_arr_nil f rest
        | cons x xs' =>
          obtain ⟨c, cs, hd, hc1, hc2⟩ := dumps_head x
          rw [show dumps (Value.arr (x :: xs')) ++ rest =
              '[' :: (dumpsItems (x :: xs') ++ ']' :: rest) by simp [dumps]]
          obtain ⟨t, ht⟩ : ∃ t, dumpsItems (x :: xs') ++ ']' :: rest = c :: t := by
            rw [dumpsItems_cons, hd]
            exact ⟨cs ++ ((match xs' with
              | [] => []
              | _ :: _ => ',' :: dumpsItems xs') ++ ']' :: rest), by
                cases xs' <;> simp⟩
          rw [ht, parseV_brack_cons f c t hc1, ← ht]
          have hfi : fuelItems (x :: xs') ≤ f := by
            have he : fuelV (Value.arr (x :: xs')) = 1 + fuelItems (x :: xs') := rfl
            omega
          rw [ihI (x :: xs') rest (by simp) (by simpa [Value.wf] using hwf) hfi]
          rfl
      | map ps =>
        cases ps with
        | nil =>
          rw [show dumps (Value.map []) ++ rest = '{' :: '}' :: rest from rfl]
          exact parseV_map_nil f rest
        | cons p ps' =>
          rw [show dumps (Value.map (p :: ps')) ++ rest =
              '{' :: (dumpsPairs (p :: ps') ++ '}' :: rest) by simp [dumps]]
          obtain ⟨k, v⟩ := p
          obtain ⟨t, ht⟩ : ∃ t, dumpsPairs ((k, v) :: ps') ++ '}' :: rest = '"' :: t := by
            rw [dumpsPairs_cons]
            exact ⟨k.data ++ '"' :: ':' :: dumps v ++ ((match ps' with
              | [] => []
              | _ :: _ => ',' :: dumpsPairs ps') ++ '}' :: rest), by
                cases ps' <;> simp [pairChunk]⟩
          rw [ht, parseV_brace_cons f '"' t (by decide), ← ht]
          have hfp : fuelPairs ((k, v) :: ps') ≤ f := by
            have he : fuelV (Value.map ((k, v) :: ps')) =
              1 + fuelPairs ((k, v) :: ps') := rfl
            omega
          rw [ihP ((k, v) :: ps') rest (by simp) (by simpa [Value.wf] using hwf) hfp]
          rfl
    · intro vs rest hne hwf hf
      cases vs with
      | nil => exact absurd rfl hne
      | cons x xs =>
        cases xs with
        | nil =>
          have hfx : fuelV x ≤ f := by
            have he : fuelItems [x] = 1 + fuelV x := rfl
            omega
          have hx := ihV x (']' :: rest) (by simpa [wfItems] using hwf) hfx
          rw [show dumpsItems [x] = dumps x from rfl]
          exact parseItems_step_last hx
        | cons y ys =>
          have hwf' : x.wf = true ∧ wfItems (y :: ys) = true := by
            simpa [wfItems, Bool.and_eq_true] using hwf
          have hfm : fuelItems (x :: y :: ys) =
              1 + max (fuelV x) (fuelItems (y :: ys)) := rfl
          have hfx : fuelV x ≤ f := by
            have := Nat.le_max_left (fuelV x) (fuelItems (y :: ys))
            omega
          have hfys : fuelItems (y :: ys) ≤ f := by
            have := Nat.le_max_right (fuelV x) (fuelItems (y :: ys))
            omega
          have hx := ihV x (',' :: (dumpsItems (y :: ys) ++ ']' :: rest)) hwf'.1 hfx
          have hys := ihI (y :: ys) rest (by simp) hwf'.2 hfys
          rw [show dumpsItems (x :: y :: ys) ++ ']' :: rest =
              dumps x ++ ',' :: (dumpsItems (y :: ys) ++ ']' :: rest) by
            rw [show dumpsItems (x :: y :: ys) =
              dumps x ++ ',' :: dumpsItems (y :: ys) from rfl]
            simp]
          exact parseItems_step_cons hx hys
    · intro ps rest hne hwf hf
      cases ps with
      | nil => exact absurd rfl hne
      | cons p tl =>
        obtain ⟨k, v⟩ := p
        have hkall : k.data.all (· ≠ '"') = true := by
          have : strOk k = true := by
            cases tl <;> simp [wfPairs, Bool.and_eq_true] at hwf <;> tauto
          simpa [strOk] using this
        cases tl with
        | nil =>
          have hwfv : v.wf = true := by
            simp [wfPairs, Bool.and_eq_true] at hwf
            tauto
          have hfv : fuelV v ≤ f := by
            have he : fuelPairs [(k, v)] = 1 + fuelV v := rfl
            omega
          have hv := ihV v ('}' :: rest) hwfv hfv
          have hk := parseStrBody_complete hkall (':' :: (dumps v ++ '}' :: rest))
          rw [show dumpsPairs [(k, v)] ++ '}' :: rest =
              '"' :: (k.data ++ '"' :: ':' :: (dumps v ++ '}' :: rest)) by
            simp [dumpsPairs]]
          have hfin := parsePairs_step_last hk hv
          rw [hfin]
        | cons q tl' =>
          have hwf' : (strOk k = true ∧ v.wf = true) ∧ wfPairs (q :: tl') = true := by
            simpa [wfPairs, Bool.and_eq_true] using hwf
          have hfm : fuelPairs ((k, v) :: q :: tl') =
              1 + max (fuelV v) (fuelPairs (q :: tl')) := rfl
          have hfv : fuelV v ≤ f := by
            have := Nat.le_max_left (fuelV v) (fuelPairs (q :: tl'))
            omega
          have hftl : fuelPairs (q :: tl') ≤ f := by
            have := Nat.le_max_right (fuelV v) (fuelPairs (q :: tl'))
            omega
          have hv := ihV v (',' :: (dumpsPairs (q :: tl') ++ '}' :: rest)) hwf'.1.2 hfv
          have htl := ihP (q :: tl') rest (by simp) hwf'.2 hftl
          have hk := parseStrBody_complete hkall
            (':' :: (dumps v ++ ',' :: (dumpsPairs (q :: tl') ++ '}' :: rest)))
          rw [show dumpsPairs ((k, v) :: q :: tl') ++ '}' :: rest =
              '"' :: (k.data ++ '"' :: ':' :: (dumps v ++
                ',' :: (dumpsPairs (q :: tl') ++ '}' :: rest))) by
            rw [show dumpsPairs ((k, v) :: q :: tl') =
              '"' :: k.data ++ '"' :: ':' :: dumps v ++
                ',' :: dumpsPairs (q :: tl') from rfl]
            simp]
          have hfin := parsePairs_step_cons hk hv htl
          rw [hfin]

mutual

theorem fuelV_le_dumps (v : Value) : fuelV v ≤ (dumps v).length := by
  cases v with
  | null => simp [fuelV, dumps]
  | str s => simp [fuelV, dumps]
  | arr xs =>
    cases xs with
    | nil => simp [fuelV, dumps, dumpsItems]
    | cons x xs' =>
      have h := fuelItems_le_dumps (x :: xs')
      have he : fuelV (Value.arr (x :: xs')) = 1 + fuelItems (x :: xs') := rfl
      have hl : (dumps (Value.arr (x :: xs'))).length =
          (dumpsItems (x :: xs')).length + 2 := by
        simp [dumps]
      omega
  | map ps =>
    cases ps with
    | nil => simp [fuelV, dumps, dumpsPairs]
    | cons p ps' =>
      have h := fuelPairs_le_dumps (p :: ps')
      have he : fuelV (Value.map (p :: ps')) = 1 + fuelPairs (p :: ps') := rfl
      have hl : (dumps (Value.map (p :: ps'))).length =
          (dumpsPairs (p :: ps')).length + 2 := by
        simp [dumps]
      omega

theorem fuelItems_le_dumps (vs : List Value) :
    fuelItems vs ≤ (dumpsItems vs).length + 1 := by
  cases vs with
  | nil => simp [fuelItems, dumpsItems]
  | cons x xs =>
    cases xs with
    | nil =>
      have h := fuelV_le_dumps x
      have he : fuelItems [x] = 1 + fuelV x := rfl
      have hl : (dumpsItems [x]).length = (dumps x).length := by
        rw [show dumpsItems [x] = dumps x from rfl]
      omega
    | cons y ys =>
      have h1 := fuelV_le_dumps x
      have h2 := fuelItems_le_dumps (y :: ys)
      have he : fuelItems (x :: y :: ys) =
          1 + max (fuelV x) (fuelItems (y :: ys)) := rfl
      have hl : (dumpsItems (x :: y :: ys)).length =
          (dumps x).length + 1 + (dumpsItems (y :: ys)).length := by
        rw [show dumpsItems (x :: y :: ys) =
          dumps x ++ ',' :: dumpsItems (y :: ys) from rfl]
        simp
        omega
      have h3 : max (fuelV x) (fuelItems (y :: ys)) ≤
          (dumps x).length + (dumpsItems (y :: ys)).length + 1 :=
        max_le (by omega) (by omega)
      omega

theorem fuelPairs_le_dumps (ps : List (String × Value)) :
    fuelPairs ps ≤ (dumpsPairs ps).length + 1 := by
  cases ps with
  | nil => simp [fuelPairs, dumpsPairs]
  | cons p tl =>
    obtain ⟨k, v⟩ := p
    cases tl with
    | nil =>
      have h := fuelV_le_dumps v
      have he : fuelPairs [(k, v)] = 1 + fuelV v := rfl
      have hl : (dumpsPairs [(k, v)]).length = k.data.length + 3 + (dumps v).length := by
        simp [dumpsPairs]
        omega
      omega
    | cons q tl' =>
      have h1 := fuelV_le_dumps v
      have h2 := fuelPairs_le_dumps (q :: tl')
      have he : fuelPairs ((k, v) :: q :: tl') =
          1 + max (fuelV v) (fuelPairs (q :: tl')) := rfl
      have hl : (dumpsPairs ((k, v) :: q :: tl')).length =
          k.data.length + 4 + (dumps v).length + (dumpsPairs (q :: tl')).length := by
        rw [show dumpsPairs ((k, v) :: q :: tl') =
          '"' :: k.data ++ '"' :: ':' :: dumps v ++ ',' :: dumpsPairs (q :: tl') from rfl]
        simp
        omega
      have h3 : max (fuelV v) (fuelPairs (q :: tl')) ≤
          (dumps v).length + (dumpsPairs (q :: tl')).length + 1 :=
        max_le (by omega) (by omega)
      omega

end

theorem loads_complete {v : Value} (hwf : v.wf = true) : loads (dumps v) = .ok v := by
  have hb := fuelV_le_dumps v
  have hc := (parse_complete ((dumps v).length + 1)).1 v [] hwf (by omega)
  rw [List.append_nil] at hc
  unfold loads
  rw [hc]

theorem loads_sound {b : List Char} {v : Value} (h : loads b = .ok v) :
    dumps v = b ∧ v.wf = true := by
  unfold loads at h
  split at h
  case _ v' heq =>
    have hv : v' = v := by
      simpa using h
    obtain ⟨he, hwf⟩ := (parse_sound (b.length + 1)).1 b v' [] heq
    rw [← hv, he]
    refine ⟨by simp, hwf⟩
  case _ => simp at h

theorem cpure {α : Type} (a : α) : (pure a : CResult α) = .ok a := rfl

theorem sizage_cases {code : String} {fs : Nat} (h : Matter.sizage code = some fs) :
    fs = 44 ∧ code.data.length = 1 := by
  unfold Matter.sizage at h
  split at h
  · rename_i hc
    have hfs : fs = 44 := by simpa using h.symm
    rcases hc with hc | hc | hc <;> subst hc <;> exact ⟨hfs, rfl⟩
  · simp at h

theorem b64Char_ne_quote (n : Nat) : b64Char n ≠ '"' := by
  unfold b64Char
  rcases Nat.lt_or_ge n 64 with h | h
  · interval_cases n <;> decide
  · rw [List.getD_eq_default]
    · decide
    · have : ("ABCDEFGHIJKLMNOPQRSTUVWXYZabcdefghijklmnopqrstuvwxyz0123456789-_").data.length = 64 := by decide
      omega

theorem qb64Digest_length {code : String} {fs : Nat} (h : Matter.sizage code = some fs)
    (s : List Char) : (qb64Digest code fs s).data.length = fs := by
  obtain ⟨hfs, hcl⟩ := sizage_cases h
  have hcl2 : code.length = 1 := hcl
  simp [qb64Digest, hfs]
  omega

theorem qb64Digest_strOk (code : String) (fs : Nat) (s : List Char)
    (hcode : strOk code = true) : strOk (qb64Digest code fs s) = true := by
  simp only [strOk, qb64Digest, List.all_append, Bool.and_eq_true, List.all_eq_true]
  constructor
  · simpa [strOk, List.all_eq_true] using hcode
  · intro c hc
    simp only [List.mem_map] at hc
    obtain ⟨i, _, hci⟩ := hc
    subst hci
    simpa using b64Char_ne_quote _

theorem placeholder_data (fs : Nat) : (placeholder fs).data = List.replicate fs '#' := rfl

theorem placeholder_strOk (fs : Nat) : strOk (placeholder fs) = true := by
  simp only [strOk, placeholder_data, List.all_eq_true]
  intro c hc
  have := List.eq_of_mem_replicate hc
  subst this
  decide

/-- The digest `saidify` embeds when run over the fields `ps`. -/
def saidKed (code : String) (fs : Nat) (ps : List (String × Value)) : String :=
  qb64Digest code fs (dumps (Value.map (putPairs Ids.d (.str (placeholder fs)) ps)))

theorem saidify_stable {ps : List (String × Value)} {codeOpt : Option String}
    {fs : Nat} (hfs : Matter.sizage (codeOpt.getD Codex.Blake3_256) = some fs)
    {d0 : String} (hd : lookupPairs Ids.d ps = some (.str d0))
    (hdl : d0.data.length = fs)
    {vstr : String} (hv : lookupPairs Ids.v ps = some (.str vstr))
    {tk : VersionToken} (htk : deversify vstr.data = .ok tk)
    (hkind : tk.kind = Serialage.JSON)
    (hsz : tk.size = (dumps (Value.map ps)).length)
    (kind : Option String) :
    Saider.saidify (Value.map ps) codeOpt kind none none =
      .ok (⟨codeOpt.getD Codex.Blake3_256,
          saidKed (codeOpt.getD Codex.Blake3_256) fs ps⟩,
        Value.map (putPairs Ids.d
          (.str (saidKed (codeOpt.getD Codex.Blake3_256) fs ps)) ps)) := by
  set code := codeOpt.getD Codex.Blake3_256 with hcode
  have hdv : Ids.d ≠ Ids.v := by decide
  have hput1 : (Value.map ps).put Ids.d (.str (placeholder fs)) =
      .ok (.map (putPairs Ids.d (.str (placeholder fs)) ps)) := rfl
  have hlook : (Value.map (putPairs Ids.d (.str (placeholder fs)) ps)).lookup Ids.v =
      some (.str vstr) := by
    simp [Value.lookup, lookupPairs_putPairs_ne hdv, hv]
  have hser1 : serializeKed tk.kind
      (Value.map (putPairs Ids.d (.str (placeholder fs)) ps)) =
      .ok (dumps (Value.map (putPairs Ids.d (.str (placeholder fs)) ps))) := by
    rw [hkind]
    rfl
  have hlen1 : (dumps (Value.map (putPairs Ids.d (.str (placeholder fs)) ps))).length =
      tk.size := by
    have hst := dumpsPairs_putPairs_len hd (placeholder fs)
    have hph : (placeholder fs).data.length = fs := by
      simp [placeholder_data]
    have hl1 : (dumps (Value.map (putPairs Ids.d (.str (placeholder fs)) ps))).length =
        (dumpsPairs (putPairs Ids.d (.str (placeholder fs)) ps)).length + 2 := by
      simp [dumps]
    have hl2 : (dumps (Value.map ps)).length = (dumpsPairs ps).length + 2 := by
      simp [dumps]
    omega
  have hvers : versify tk.ident tk.major tk.minor tk.kind
      (dumps (Value.map (putPairs Ids.d (.str (placeholder fs)) ps))).length =
      .ok vstr := by
    rw [hlen1]
    have := deversify_versify htk
    cases vstr
    simpa using this
  have hput2 : (Value.map (putPairs Ids.d (.str (placeholder fs)) ps)).put Ids.v
      (.str vstr) = .ok (.map (putPairs Ids.d (.str (placeholder fs)) ps)) := by
    simp only [Value.put, Except.ok.injEq, Value.map.injEq]
    apply lookupPairs_put_self
    rw [lookupPairs_putPairs_ne hdv]
    exact hv
  have hput3 : (Value.map (putPairs Ids.d (.str (placeholder fs)) ps)).put Ids.d
      (.str (qb64Digest code fs
        (dumps (Value.map (putPairs Ids.d (.str (placeholder fs)) ps))))) =
      .ok (.map (putPairs Ids.d (.str (saidKed code fs ps)) ps)) := by
    rw [show qb64Digest code fs
      (dumps (Value.map (putPairs Ids.d (.str (placeholder fs)) ps))) =
        saidKed code fs ps from rfl]
    simp [Value.put, putPairs_collapse]
  unfold Saider.saidify
  simp only [Option.getD_some, Option.getD_none, hfs, cpure, cbind_ok, hput1, hlook,
    Value.asString, htk, hser1, hvers, hput2, hput3]
  rfl

theorem cbind_err2 {α β : Type} (e : Error) (f : α → CResult β) :
    ((Except.error e : CResult α) >>= f) = (.error e : CResult β) := rfl

theorem cthrow {α : Type} (e : Error) : (throw e : CResult α) = .error e := rfl

theorem saidify_ok_elim {sad : Value} {code kind : Option String}
    {sd : Saider} {ked' : Value}
    (h : Saider.saidify sad code kind none none = .ok (sd, ked')) :
    ∃ ps fs, sad = .map ps ∧
      Matter.sizage (code.getD Codex.Blake3_256) = some fs ∧
      ((∃ vstr tk vs,
          lookupPairs Ids.v (putPairs Ids.d (.str (placeholder fs)) ps) =
            some (.str vstr) ∧
          deversify vstr.data = .ok tk ∧ tk.kind = Serialage.JSON ∧
          versify tk.ident tk.major tk.minor tk.kind
            (dumps (Value.map (putPairs Ids.d (.str (placeholder fs)) ps))).length =
            .ok vs ∧
          sd = ⟨code.getD Codex.Blake3_256,
            qb64Digest (code.getD Codex.Blake3_256) fs
              (dumps (Value.map (putPairs Ids.v (.str vs)
                (putPairs Ids.d (.str (placeholder fs)) ps))))⟩ ∧
          ked' = .map (putPairs Ids.d (.str sd.qb64)
            (putPairs Ids.v (.str vs) (putPairs Ids.d (.str (placeholder fs)) ps)))) ∨
       (lookupPairs Ids.v (putPairs Ids.d (.str (placeholder fs)) ps) = none ∧
        kind.getD Serialage.JSON = Serialage.JSON ∧
        sd = ⟨code.getD Codex.Blake3_256,
          qb64Digest (code.getD Codex.Blake3_256) fs
            (dumps (Value.map (putPairs Ids.d (.str (placeholder fs)) ps)))⟩ ∧
        ked' = .map (putPairs Ids.d (.str sd.qb64)
          (putPairs Ids.d (.str (placeholder fs)) ps)))) := by
  unfold Saider.saidify at h
  simp only [Option.getD_some, Option.getD_none] at h
  cases hfs : Matter.sizage (code.getD Codex.Blake3_256) with
  | none =>
    rw [hfs] at h
    simp [cthrow, cbind_err2] at h
  | some fs =>
    rw [hfs] at h
    simp only [cpure, cbind_ok] at h
    cases sad with
    | map ps =>
      refine ⟨ps, fs, rfl, rfl, ?_⟩
      simp only [Value.put, cbind_ok] at h
      cases hlv : (Value.map (putPairs Ids.d (.str (placeholder fs)) ps)).lookup
          Ids.v with
      | some vv =>
        rw [hlv] at h
        cases vv with
        | str vstr =>
          left
          simp only [Value.asString, cbind_ok] at h
          cases htk : deversify vstr.data with
          | error e =>
            rw [htk] at h
            simp [cbind_err2] at h
          | ok tk =>
            rw [htk] at h
            simp only [cbind_ok] at h
            by_cases hkd : tk.kind = Serialage.JSON
            · rw [hkd] at h
              simp only [serializeKed, if_pos rfl, if_true, cbind_ok] at h
              cases hvs : versify tk.ident tk.major tk.minor Serialage.JSON
                  (dumps (Value.map (putPairs Ids.d (.str (placeholder fs))
                    ps))).length with
              | error e =>
                rw [hvs] at h
                simp [cbind_err2] at h
              | ok vs =>
                rw [hvs] at h
                simp only [cbind_ok, Value.put] at h
                simp only [serializeKed, if_pos rfl, if_true, cbind_ok, cpure,
                  Except.ok.injEq, Prod.mk.injEq] at h
                obtain ⟨hsd, hked⟩ := h
                refine ⟨vstr, tk, vs, by simpa [Value.lookup] using hlv, htk, hkd,
                  by rw [hkd]; exact hvs, ?_, ?_⟩
                · rw [← hsd]
                · rw [← hked, ← hsd]
            · exfalso
              have hser : serializeKed tk.kind (Value.map (putPairs Ids.d
                  (.str (placeholder fs)) ps)) = .error .CodecFailure ∨
                  serializeKed tk.kind (Value.map (putPairs Ids.d
                  (.str (placeholder fs)) ps)) = .error .UnsupportedKind := by
                unfold serializeKed
                rw [if_neg hkd]
                split
                · exact Or.inl rfl
                · exact Or.inr rfl
              rcases hser with hser | hser <;> rw [hser] at h <;> simp [cbind_err2] at h
        | null => simp [Value.asString, cthrow, cbind_err2] at h
        | arr xs => simp [Value.asString, cthrow, cbind_err2] at h
        | map mps => simp [Value.asString, cthrow, cbind_err2] at h
      | none =>
        rw [hlv] at h
        right
        by_cases hkd : kind.getD Serialage.JSON = Serialage.JSON
        · rw [hkd] at h
          simp only [serializeKed, if_pos rfl, if_true, cbind_ok, cpure, Value.put,
            Except.ok.injEq, Prod.mk.injEq] at h
          obtain ⟨hsd, hked⟩ := h
          refine ⟨by simpa [Value.lookup] using hlv, hkd, ?_, ?_⟩
          · rw [← hsd]
          · rw [← hked, ← hsd]
        · exfalso
          have hser : serializeKed (kind.getD Serialage.JSON) (Value.map (putPairs
              Ids.d (.str (placeholder fs)) ps)) = .error .CodecFailure ∨
              serializeKed (kind.getD Serialage.JSON) (Value.map (putPairs Ids.d
              (.str (placeholder fs)) ps)) = .error .UnsupportedKind := by
            unfold serializeKed
            rw [if_neg hkd]
            split
            · exact Or.inl rfl
            · exact Or.inr rfl
          rcases hser with hser | hser <;> rw [hser] at h <;> simp [cbind_err2] at h
    | null => simp [Value.put, cbind_err2] at h
    | str s => simp [Value.put, cbind_err2] at h
    | arr xs => simp [Value.put, cbind_err2] at h

theorem saidify_unversioned {ps : List (String × Value)} {codeOpt : Option String}
    {fs : Nat} (hfs : Matter.sizage (codeOpt.getD Codex.Blake3_256) = some fs)
    {kind : Option String}
    (hlv : lookupPairs Ids.v (putPairs Ids.d (.str (placeholder fs)) ps) = none)
    (hkd : kind.getD Serialage.JSON = Serialage.JSON) :
    Saider.saidify (Value.map ps) codeOpt kind none none =
      .ok (⟨codeOpt.getD Codex.Blake3_256,
          saidKed (codeOpt.getD Codex.Blake3_256) fs ps⟩,
        Value.map (putPairs Ids.d
          (.str (saidKed (codeOpt.getD Codex.Blake3_256) fs ps))
          (putPairs Ids.d (.str (placeholder fs)) ps))) := by
  have hlv2 : (Value.map (putPairs Ids.d (.str (placeholder fs)) ps)).lookup Ids.v =
      none := by
    simpa [Value.lookup] using hlv
  unfold Saider.saidify
  simp only [Option.getD_none, hfs, cpure, cbind_ok, Value.put, hlv2, hkd]
  simp only [serializeKed, if_pos rfl, if_true, cbind_ok, cpure]
  rfl

theorem deversify_len {cs : List Char} {tk : VersionToken}
    (h : deversify cs = .ok tk) : cs.length = 17 := by
  unfold deversify at h
  split at h
  · rename_i i1 i2 i3 i4 mj mn k1 k2 k3 k4 s1 s2 s3 s4 s5 s6 t
    rfl
  · simp at h

theorem versify_len {ident : String} {mj mn : Nat} {kind : String} {sz : Nat}
    {vs : String} (h : versify ident mj mn kind sz = .ok vs) :
    vs.data.length = 17 := by
  unfold versify at h
  split at h
  · simp at h
  split at h
  · simp at h
  split at h
  · simp at h
  rename_i hid hkind hnum
  obtain ⟨hlen, _⟩ := not_not.mp hid
  have hkind' : kindOk kind = true := not_not.mp hkind
  have hvs : vs = String.mk (ident.data ++ hexChar mj :: hexChar mn :: kind.data ++
      hex6 sz ++ ['_']) := by
    cases h
    rfl
  subst hvs
  have hdlen : ident.data.length = 4 := hlen
  have hklen : kind.data.length = 4 := by
    rcases kindOk_cases hkind' with hk | hk | hk <;> subst hk <;> rfl
  simp [hex6, hdlen, hklen]

theorem dumps_map_put_len {k : String} {c a : String} {ps : List (String × Value)}
    (h : lookupPairs k ps = some (.str c)) (hlen : a.data.length = c.data.length) :
    (dumps (Value.map (putPairs k (.str a) ps))).length =
      (dumps (Value.map ps)).length := by
  have hst := dumpsPairs_putPairs_len h a
  have h1 : (dumps (Value.map (putPairs k (.str a) ps))).length =
      (dumpsPairs (putPairs k (.str a) ps)).length + 2 := by
    simp [dumps]
  have h2 : (dumps (Value.map ps)).length = (dumpsPairs ps).length + 2 := by
    simp [dumps]
  omega

theorem saidify_idem {sad : Value} {code kind kind2 : Option String} {sd : Saider}
    {ked' : Value} (h : Saider.saidify sad code kind none none = .ok (sd, ked'))
    (hk2 : kind2 = kind ∨ kind2.getD Serialage.JSON = Serialage.JSON) :
    Saider.saidify ked' code kind2 none none = .ok (sd, ked') := by
  obtain ⟨ps, fs, hsad, hfs, hcase⟩ := saidify_ok_elim h
  have hdv : Ids.d ≠ Ids.v := by decide
  have hvd : Ids.v ≠ Ids.d := by decide
  rcases hcase with ⟨vstr, tk, vs, hlv, htk, hkd, hvs, hsd, hked⟩ |
    ⟨hlv, hkd, hsd, hked⟩
  · set c := code.getD Codex.Blake3_256 with hc
    set X := putPairs Ids.d (.str (placeholder fs)) ps with hX
    set Y := putPairs Ids.v (.str vs) X with hY
    set said := sd.qb64 with hsaid
    have hsq : said = qb64Digest c fs (dumps (Value.map Y)) := by
      rw [hsaid, hsd]
    have hlkdX : lookupPairs Ids.d X = some (.str (placeholder fs)) :=
      lookupPairs_putPairs_self _ _ _
    have hlkdY : lookupPairs Ids.d Y = some (.str (placeholder fs)) := by
      rw [hY, lookupPairs_putPairs_ne hvd]
      exact hlkdX
    have hd' : lookupPairs Ids.d (putPairs Ids.d (.str said) Y) = some (.str said) :=
      lookupPairs_putPairs_self _ _ _
    have hdl' : said.data.length = fs := by
      rw [hsq]
      exact qb64Digest_length hfs _
    have hv' : lookupPairs Ids.v (putPairs Ids.d (.str said) Y) = some (.str vs) := by
      rw [lookupPairs_putPairs_ne hdv, hY]
      exact lookupPairs_putPairs_self _ _ _
    have htk' := versify_deversify hvs
    have hvstr17 : vstr.data.length = 17 := deversify_len htk
    have hvs17 : vs.data.length = 17 := versify_len hvs
    have hlen2 : (dumps (Value.map Y)).length = (dumps (Value.map X)).length := by
      rw [hY]
      exact dumps_map_put_len hlv (by rw [hvs17, hvstr17])
    have hlen3 : (dumps (Value.map (putPairs Ids.d (.str said) Y))).length =
        (dumps (Value.map Y)).length :=
      dumps_map_put_len hlkdY (by rw [hdl']; simp [placeholder_data])
    have hblank : putPairs Ids.d (.str (placeholder fs))
        (putPairs Ids.d (.str said) Y) = Y := by
      rw [putPairs_collapse, hY,
        putPairs_comm hvd _ _ (by rw [hX]; simp [lookupPairs_putPairs_self]),
        hX, putPairs_collapse]
    have hst := saidify_stable hfs hd' hdl' hv' htk'
      (by simpa using hkd)
      (by simp only [hlen3, hlen2]; try rfl) kind2
    rw [hked, hst, show saidKed c fs (putPairs Ids.d (.str said) Y) = said by
      unfold saidKed
      rw [hblank, ← hsq]]
    rw [putPairs_collapse, hsq, hsd]
  · set c := code.getD Codex.Blake3_256 with hc
    set X := putPairs Ids.d (.str (placeholder fs)) ps with hX
    set said := sd.qb64 with hsaid
    have hsq : said = qb64Digest c fs (dumps (Value.map X)) := by
      rw [hsaid, hsd]
    have hblank : putPairs Ids.d (.str (placeholder fs))
        (putPairs Ids.d (.str said) X) = X := by
      rw [putPairs_collapse, hX, putPairs_collapse]
    have hlv' : lookupPairs Ids.v (putPairs Ids.d (.str (placeholder fs))
        (putPairs Ids.d (.str said) X)) = none := by
      rw [hblank]
      exact hlv
    have hkd2 : kind2.getD Serialage.JSON = Serialage.JSON := by
      rcases hk2 with hk2 | hk2
      · rw [hk2]
        exact hkd
      · exact hk2
    have hst := saidify_unversioned hfs hlv' hkd2
    rw [hked, hst, show saidKed c fs (putPairs Ids.d (.str said) X) = said by
      unfold saidKed
      rw [hblank, ← hsq]]
    rw [hblank, putPairs_collapse, hsq, hsd]

theorem fromRaw_ok_elim {code : String} {b : List Char} {r : SerderACDC}
    (h : Sadder.fromRaw code b = .ok r) :
    ∃ tk ked d0 sd ked3,
      sniff b = .ok tk ∧ ¬ b.length < tk.size ∧
      deserializeKed tk.kind (b.take tk.size) = .ok ked ∧
      ked.lookup Ids.d = some (.str d0) ∧
      Saider.saidify ked (some code) none none none = .ok (sd, ked3) ∧
      sd.qb64 = d0 ∧
      r = ⟨code, b.take tk.size, ked, tk.ident, tk.kind, tk.size,
        ⟨tk.major, tk.minor⟩, ⟨code, d0⟩⟩ := by
  unfold Sadder.fromRaw at h
  cases hsn : sniff b with
  | error e =>
    rw [hsn] at h
    simp [cbind_err2] at h
  | ok tk =>
    rw [hsn] at h
    simp only [cbind_ok] at h
    by_cases hsz : b.length < tk.size
    · rw [if_pos hsz] at h
      simp [cthrow, cbind_err2] at h
    · rw [if_neg hsz] at h
      simp only [cpure, cbind_ok] at h
      cases hds : deserializeKed tk.kind (b.take tk.size) with
      | error e =>
        rw [hds] at h
        simp [cbind_err2] at h
      | ok ked =>
        rw [hds] at h
        simp only [cbind_ok] at h
        cases hld : ked.lookup Ids.d with
        | none =>
          rw [hld] at h
          simp [cthrow, cbind_err2] at h
        | some dv =>
          rw [hld] at h
          cases dv with
          | str d0 =>
            simp only [cpure, cbind_ok] at h
            unfold Saider.verify at h
            rw [hld] at h
            cases hsy : Saider.saidify ked (some code) none none none with
            | error e =>
              rw [hsy] at h
              simp [cbind_err2] at h
            | ok p =>
              obtain ⟨sd, ked3⟩ := p
              rw [hsy] at h
              simp only [cpure, cbind_ok] at h
              by_cases hqe : sd.qb64 = d0
              · rw [if_neg (by simp [hqe])] at h
                simp only [cpure, cbind_ok, Except.ok.injEq] at h
                refine ⟨tk, ked, d0, sd, ked3, ?_, hsz, ?_, hld, hsy, hqe, h.symm⟩
                · first
                  | rfl
                  | exact hsn
                · first
                  | rfl
                  | exact hds
              · rw [if_pos (by simp [hqe])] at h
                simp [cthrow, cbind_err2] at h
          | null =>
            simp [cthrow, cbind_err2] at h
          | arr xs =>
            simp [cthrow, cbind_err2] at h
          | map mps =>
            simp [cthrow, cbind_err2] at h

theorem fromRaw_ok_intro {code : String} {b : List Char} {tk : VersionToken}
    {ked : Value} {d0 : String} {sd : Saider} {ked3 : Value}
    (hsn : sniff b = .ok tk) (hsz : ¬ b.length < tk.size)
    (hds : deserializeKed tk.kind (b.take tk.size) = .ok ked)
    (hld : ked.lookup Ids.d = some (.str d0))
    (hsy : Saider.saidify ked (some code) none none none = .ok (sd, ked3))
    (hqe : sd.qb64 = d0) :
    Sadder.fromRaw code b = .ok ⟨code, b.take tk.size, ked, tk.ident, tk.kind,
      tk.size, ⟨tk.major, tk.minor⟩, ⟨code, d0⟩⟩ := by
  unfold Sadder.fromRaw
  rw [hsn]
  simp only [cbind_ok]
  rw [if_neg hsz]
  simp only [cpure, cbind_ok]
  rw [hds]
  simp only [cbind_ok]
  rw [hld]
  simp only [cpure, cbind_ok]
  unfold Saider.verify
  rw [hld, hsy]
  simp only [cpure, cbind_ok]
  rw [if_neg (by simp [hqe])]

theorem fromRaw_mismatch {code : String} {b : List Char} {tk : VersionToken}
    {ked : Value} {d0 : String} {sd : Saider} {ked3 : Value}
    (hsn : sniff b = .ok tk) (hsz : ¬ b.length < tk.size)
    (hds : deserializeKed tk.kind (b.take tk.size) = .ok ked)
    (hld : ked.lookup Ids.d = some (.str d0))
    (hsy : Saider.saidify ked (some code) none none none = .ok (sd, ked3))
    (hqe : sd.qb64 ≠ d0) :
    Sadder.fromRaw code b = .error .DigestMismatch := by
  unfold Sadder.fromRaw
  rw [hsn]
  simp only [cbind_ok]
  rw [if_neg hsz]
  simp only [cpure, cbind_ok]
  rw [hds]
  simp only [cbind_ok]
  rw [hld]
  simp only [cpure, cbind_ok]
  unfold Saider.verify
  rw [hld, hsy]
  simp only [cpure, cbind_ok]
  rw [if_pos (by simp [hqe])]
  rfl

theorem fromKed_ok_elim {ked : Value} {code : String} {kind : Option String}
    {r : SerderACDC} (h : Sadder.fromKed ked code kind = .ok r) :
    ∃ saider ked' vstr tk raw,
      Saider.saidify ked (some code) kind none none = .ok (saider, ked') ∧
      ked'.lookup Ids.v = some (.str vstr) ∧
      deversify vstr.data = .ok tk ∧
      serializeKed tk.kind ked' = .ok raw ∧
      r = ⟨code, raw, ked', tk.ident, tk.kind, tk.size, ⟨tk.major, tk.minor⟩,
        saider⟩ := by
  unfold Sadder.fromKed at h
  cases hsy : Saider.saidify ked (some code) kind none none with
  | error e =>
    rw [hsy] at h
    simp [cbind_err2] at h
  | ok p =>
    obtain ⟨saider, ked'⟩ := p
    rw [hsy] at h
    simp only [cbind_ok] at h
    cases hlv : ked'.lookup Ids.v with
    | none =>
      rw [hlv] at h
      simp [cthrow, cbind_err2] at h
    | some vv =>
      rw [hlv] at h
      cases vv with
      | str vstr =>
        simp only [cpure, cbind_ok] at h
        cases htk : deversify vstr.data with
        | error e =>
          rw [htk] at h
          simp [cbind_err2] at h
        | ok tk =>
          rw [htk] at h
          simp only [cbind_ok] at h
          cases hser : serializeKed tk.kind ked' with
          | error e =>
            rw [hser] at h
            simp [cbind_err2] at h
          | ok raw =>
            rw [hser] at h
            simp only [cpure, cbind_ok, Except.ok.injEq] at h
            refine ⟨saider, ked', vstr, tk, raw, ?_, hlv, ?_, ?_, h.symm⟩
            · first
              | rfl
              | exact hsy
            · first
              | rfl
              | exact htk
            · first
              | rfl
              | exact hser
      | null => simp [cthrow, cbind_err2] at h
      | arr xs => simp [cthrow, cbind_err2] at h
      | map mps => simp [cthrow, cbind_err2] at h

theorem fromKed_ok_intro {ked : Value} {code : String} {kind : Option String}
    {saider : Saider} {ked' : Value} {vstr : String} {tk : VersionToken}
    {raw : List Char}
    (hsy : Saider.saidify ked (some code) kind none none = .ok (saider, ked'))
    (hlv : ked'.lookup Ids.v = some (.str vstr))
    (htk : deversify vstr.data = .ok tk)
    (hser : serializeKed tk.kind ked' = .ok raw) :
    Sadder.fromKed ked code kind = .ok ⟨code, raw, ked', tk.ident, tk.kind,
      tk.size, ⟨tk.major, tk.minor⟩, saider⟩ := by
  unfold Sadder.fromKed
  rw [hsy]
  simp only [cbind_ok]
  rw [hlv]
  simp only [cpure, cbind_ok]
  rw [htk]
  simp only [cbind_ok]
  rw [hser]
  simp only [cpure, cbind_ok]

theorem new_with_raw_ok_iff {b : List Char} {r : SerderACDC} :
    SerderACDC.new_with_raw b = .ok r ↔
      Sadder.fromRaw Codex.Blake3_256 b = .ok r ∧ r.ident = Identage.ACDC := by
  unfold SerderACDC.new_with_raw SerderACDC.new Sadder.new
  simp only [Option.getD_none, Option.getD_some]
  cases hfr : Sadder.fromRaw Codex.Blake3_256 b with
  | error e =>
    simp [cbind_err2]
  | ok r0 =>
    simp only [cbind_ok]
    unfold validate_ident
    by_cases hid : r0.ident = Identage.ACDC
    · rw [if_neg (by simp [hid])]
      simp only [cpure, cbind_ok, Except.ok.injEq]
      constructor
      · intro he
        subst he
        exact ⟨rfl, hid⟩
      · intro ⟨h1, _⟩
        simpa using h1
    · rw [if_pos (by simpa using hid)]
      simp only [cbind_err2]
      constructor
      · intro he
        simp at he
      · intro ⟨h1, h2⟩
        have : r0 = r := by simpa using h1
        subst this
        exact absurd h2 hid

theorem new_with_ked_ok_iff {ked : Value} {code kind : Option String}
    {r : SerderACDC} :
    SerderACDC.new_with_ked ked code kind = .ok r ↔
      Sadder.fromKed ked (code.getD Codex.Blake3_256) kind = .ok r ∧
        r.ident = Identage.ACDC := by
  unfold SerderACDC.new_with_ked SerderACDC.new Sadder.new
  simp only [Option.getD_some]
  cases hfk : Sadder.fromKed ked (code.getD Codex.Blake3_256) kind with
  | error e =>
    simp [cbind_err2]
  | ok r0 =>
    simp only [cbind_ok]
    unfold validate_ident
    by_cases hid : r0.ident = Identage.ACDC
    · rw [if_neg (by simp [hid])]
      simp only [cpure, cbind_ok, Except.ok.injEq]
      constructor
      · intro he
        subst he
        exact ⟨rfl, hid⟩
      · intro ⟨h1, _⟩
        simpa using h1
    · rw [if_pos (by simpa using hid)]
      simp only [cbind_err2]
      constructor
      · intro he
        simp at he
      · intro ⟨h1, h2⟩
        have : r0 = r := by simpa using h1
        subst this
        exact absurd h2 hid

theorem deserializeKed_ok_kind {k : String} {b : List Char} {v : Value}
    (h : deserializeKed k b = .ok v) : k = Serialage.JSON ∧ loads b = .ok v := by
  unfold deserializeKed at h
  split at h
  · rename_i hk
    exact ⟨hk, h⟩
  · split at h <;> simp at h

theorem hexChar_ne_quote (n : Nat) : hexChar n ≠ '"' := by
  unfold hexChar
  rcases Nat.lt_or_ge n 16 with h | h
  · interval_cases n <;> decide
  · rw [List.getD_eq_default]
    · decide
    · have : ("0123456789abcdef").data.length = 16 := by decide
      omega

theorem isUpper_ne_quote {c : Char} (h : c.isUpper = true) : c ≠ '"' := by
  intro hq
  subst hq
  exact absurd h (by decide)

theorem versify_strOk {ident : String} {mj mn : Nat} {kind : String} {sz : Nat}
    {vs : String} (h : versify ident mj mn kind sz = .ok vs) : strOk vs = true := by
  unfold versify at h
  split at h
  · simp at h
  split at h
  · simp at h
  split at h
  · simp at h
  rename_i hid hkind hnum
  obtain ⟨hlen, hupper⟩ := not_not.mp hid
  have hkind' : kindOk kind = true := not_not.mp hkind
  have hvs : vs = String.mk (ident.data ++ hexChar mj :: hexChar mn :: kind.data ++
      hex6 sz ++ ['_']) := by
    cases h
    rfl
  subst hvs
  simp only [strOk, List.all_append, List.all_cons, List.all_nil, Bool.and_eq_true,
    decide_eq_true_eq, List.all_eq_true]
  repeat' constructor
  all_goals first
  | exact hexChar_ne_quote _
  | (intro c hc
     first
     | exact isUpper_ne_quote (List.all_eq_true.mp hupper c hc)
     | (have hkall : kind.data.all (fun x => decide (x ≠ '"')) = true := by
          rcases kindOk_cases hkind' with hk | hk | hk <;> subst hk <;> decide
        exact of_decide_eq_true (List.all_eq_true.mp hkall c hc))
     | (simp only [hex6, List.mem_cons, List.not_mem_nil, or_false] at hc
        rcases hc with hc | hc | hc | hc | hc | hc <;> subst hc <;>
          exact hexChar_ne_quote _))
  | decide
  | trivial

theorem dumps_map_vhead {ps : List (String × Value)} (hwp : wfPairs ps = true)
    (hb : (dumps (Value.map ps)).take 6 = ['{', '"', 'v', '"', ':', '"']) :
    ∃ s tl, ps = (Ids.v, Value.str s) :: tl := by
  cases ps with
  | nil => simp [dumps, dumpsPairs] at hb
  | cons p tl =>
    obtain ⟨k, w⟩ := p
    rw [show dumps (Value.map ((k, w) :: tl)) =
      '{' :: (dumpsPairs ((k, w) :: tl) ++ ['}']) from by simp [dumps]] at hb
    rw [dumpsPairs_cons] at hb
    simp only [pairChunk] at hb
    have hko : strOk k = true := by
      simp only [wfPairs, Bool.and_eq_true] at hwp
      exact hwp.1.1
    cases hkd : k.data with
    | nil =>
      rw [hkd] at hb
      simp [List.take] at hb
    | cons c0 rest =>
      rw [hkd] at hb
      cases rest with
      | nil =>
        simp only [List.nil_append, List.cons_append, List.take] at hb
        simp at hb
        obtain ⟨hc0, hw⟩ := hb
        subst hc0
        have hk : k = Ids.v := by
          cases k
          simp at hkd
          rw [hkd]
          rfl
        cases w with
        | str s =>
          exact ⟨s, tl, by rw [hk]⟩
        | null => simp [dumps, List.take] at hw
        | arr xs => simp [dumps, List.take] at hw
        | map mps => simp [dumps, List.take] at hw
      | cons c1 rest2 =>
        exfalso
        simp only [List.cons_append, List.take] at hb
        simp at hb
        have hko' : ∀ x ∈ k.data, x ≠ '"' := by simpa [strOk] using hko
        exact hko' c1 (by rw [hkd]; simp) hb.2.1

theorem sniff_dumps_vhead {s : String} (tl : List (String × Value))
    (h17 : s.data.length = 17) :
    sniff (dumps (Value.map ((Ids.v, Value.str s) :: tl))) = deversify s.data := by
  have hd : dumps (Value.map ((Ids.v, Value.str s) :: tl)) =
      '{' :: '"' :: 'v' :: '"' :: ':' :: '"' :: (s.data ++ ('"' ::
        ((match tl with | [] => [] | _ :: _ => ',' :: dumpsPairs tl) ++ ['}']))) := by
    rw [show dumps (Value.map ((Ids.v, Value.str s) :: tl)) =
      '{' :: (dumpsPairs ((Ids.v, Value.str s) :: tl) ++ ['}']) from by simp [dumps]]
    rw [dumpsPairs_cons]
    simp [pairChunk, dumps, Ids.v]
  rw [hd]
  unfold sniff
  rw [if_pos (by simp [List.take])]
  congr 1
  simp only [List.drop]
  rw [← h17, List.take_left]

theorem saidify_fixpoint {ps : List (String × Value)} {codeOpt : Option String}
    {fs : Nat} (hfs : Matter.sizage (codeOpt.getD Codex.Blake3_256) = some fs)
    {d0 : String} (hd : lookupPairs Ids.d ps = some (.str d0))
    (hdl : d0.data.length = fs)
    {vstr : String} (hv : lookupPairs Ids.v ps = some (.str vstr))
    {tk : VersionToken} (htk : deversify vstr.data = .ok tk)
    (hkind : tk.kind = Serialage.JSON)
    (hsz : tk.size = (dumps (Value.map ps)).length)
    (hd0 : saidKed (codeOpt.getD Codex.Blake3_256) fs ps = d0)
    (kind : Option String) :
    Saider.saidify (Value.map ps) codeOpt kind none none =
      .ok (⟨codeOpt.getD Codex.Blake3_256, d0⟩, Value.map ps) := by
  have hst := saidify_stable hfs hd hdl hv htk hkind hsz kind
  rw [hst, hd0, lookupPairs_put_self hd]

theorem Sadder_new_raw (c : String) (b : List Char) (kind : Option String)
    (kedo : Option Value) (sad : Option SerderACDC) :
    Sadder.new (some c) (some b) kind kedo sad = Sadder.fromRaw c b := rfl

theorem Sadder_new_ked (c : String) (k : Value) (kind : Option String)
    (sad : Option SerderACDC) :
    Sadder.new (some c) none kind (some k) sad = Sadder.fromKed k c kind := rfl

theorem SerderACDC_new_ok_elim {code : Option String} {raw : Option (List Char)}
    {kind : Option String} {kedo : Option Value} {sad : Option SerderACDC}
    {r : SerderACDC} (h : SerderACDC.new code raw kind kedo sad = .ok r) :
    Sadder.new (some (code.getD Codex.Blake3_256)) raw kind kedo sad = .ok r ∧
      r.ident = Identage.ACDC := by
  unfold SerderACDC.new at h
  have h2 : (do
      let serder_acdc ← Sadder.new (some (code.getD Codex.Blake3_256)) raw kind
        kedo sad
      validate_ident serder_acdc.ident
      pure serder_acdc : CResult SerderACDC) = .ok r := h
  clear h
  cases hsn : Sadder.new (some (code.getD Codex.Blake3_256)) raw kind kedo sad with
  | error e =>
    rw [hsn] at h2
    simp [cbind_err2] at h2
  | ok r0 =>
    rw [hsn] at h2
    simp only [cbind_ok] at h2
    unfold validate_ident at h2
    by_cases hid : r0.ident = Identage.ACDC
    · rw [if_neg (by simp [hid])] at h2
      simp only [cpure, cbind_ok, Except.ok.injEq] at h2
      subst h2
      exact ⟨rfl, hid⟩
    · rw [if_pos (by simpa using hid)] at h2
      simp [cbind_err2] at h2

theorem new_ok_ked_map {code : Option String} {raw : Option (List Char)}
    {kind : Option String} {kedo : Option Value} {r : SerderACDC}
    (h : SerderACDC.new code raw kind kedo none = .ok r) :
    ∃ ps, r.ked = .map ps := by
  obtain ⟨hsad, _⟩ := SerderACDC_new_ok_elim h
  cases raw with
  | some b =>
    rw [Sadder_new_raw] at hsad
    obtain ⟨tk, ked, d0, sd, ked3, _, _, _, _, hsy, _, hr⟩ := fromRaw_ok_elim hsad
    obtain ⟨ps, fs, hked, _, _⟩ := saidify_ok_elim hsy
    refine ⟨ps, ?_⟩
    rw [hr]
    simpa using hked
  | none =>
    cases kedo with
    | some k =>
      rw [Sadder_new_ked] at hsad
      obtain ⟨saider, ked', vstr, tk, raw', hsy, hlv, htk, hser, hr⟩ :=
        fromKed_ok_elim hsad
      obtain ⟨ps0, fs, _, _, hcase⟩ := saidify_ok_elim hsy
      rcases hcase with ⟨v1, t1, v2, hA1, hA2, hA3, hA4, hA5, hked⟩ |
        ⟨hB1, hB2, hB3, hked⟩ <;>
      · rw [hr]
        exact ⟨_, hked⟩
    | none =>
      simp [Sadder.new] at hsad

theorem sniff_ok_elim {b : List Char} {tk : VersionToken} (h : sniff b = .ok tk) :
    b.take 6 = ['{', '"', 'v', '"', ':', '"'] ∧
      deversify ((b.drop 6).take 17) = .ok tk := by
  unfold sniff at h
  split at h
  · rename_i hc
    exact ⟨hc, h⟩
  · simp at h

/-- A concrete minimal credential KED used by the witnesses: version string,
empty digest field, issuer, status registry, schema and attribute fields. -/
def cKed : Value :=
  .map [(Ids.v, .str "ACDC10JSON000000_"), (Ids.d, .str ""), (Ids.i, .str "EABC"),
    ("ri", .str "ESTAT"), (Ids.s, .str "ESCH"), (Ids.a, .map [("dt", .str "2023")])]

/-- A second concrete KED carrying an edge (`e`) section and no `ri` field. -/
def cKed2 : Value :=
  .map [(Ids.v, .str "ACDC10JSON000000_"), (Ids.d, .str ""), (Ids.i, .str "EABC"),
    ("e", .map [(Ids.d, .str "EX")])]

/-- Extract the record of a successful construction (a fixed dummy otherwise). -/
def getRec (x : CResult SerderACDC) : SerderACDC :=
  match x with
  | .ok r => r
  | .error _ => ⟨"", [], .null, "", "", 0, ⟨0, 0⟩, ⟨"", ""⟩⟩

/-- The record built from `cKed`. -/
def cRec : SerderACDC := getRec (SerderACDC.new_with_ked cKed none none)

/-- The record built from `cKed2`. -/
def cRec2 : SerderACDC := getRec (SerderACDC.new_with_ked cKed2 none none)

/-- C1 (amended): for every raw buffer whose decoded protocol identity tag is
not the credential (ACDC) identity, constructing a SerderACDC record from
that buffer fails — no record is ever returned — and whenever the generic
record construction itself succeeds, the failure is precisely the
identity-gating error that the spec names `UnexpectedIdentity` (realized by
the source as `Error::Value("SerderACDC must be an ACDC")`).  The original
claim's stronger universal — that the failure is always `UnexpectedIdentity`
— is refuted by `C1_identity_gating_counterexample`: a non-ACDC buffer can
fail earlier in the pipeline with a different declared error. -/
theorem C1_identity_gating {b : List Char} {tk : VersionToken}
    (hsn : sniff b = .ok tk) (hne : tk.ident ≠ Identage.ACDC) :
    (∀ r, SerderACDC.new_with_raw b ≠ .ok r) ∧
    (∀ r, Sadder.fromRaw Codex.Blake3_256 b = .ok r →
      SerderACDC.new_with_raw b = .error Error.unexpectedIdentity) := by
  have hident : ∀ r, Sadder.fromRaw Codex.Blake3_256 b = .ok r →
      r.ident = tk.ident := by
    intro r hfr
    obtain ⟨tk', ked, d0, sd, ked3, hsn', _, _, _, _, _, hr⟩ := fromRaw_ok_elim hfr
    have htt : tk = tk' := by
      rw [hsn] at hsn'
      exact Except.ok.inj hsn'
    rw [hr, ← htt]
  constructor
  · intro r hok
    obtain ⟨hfr, hid⟩ := new_with_raw_ok_iff.mp hok
    exact hne (by rw [← hident r hfr]; exact hid)
  · intro r hfr
    have hni : r.ident ≠ Identage.ACDC := by
      rw [hident r hfr]
      exact hne
    show (do
      let s ← Sadder.new (some Codex.Blake3_256) (some b) none none none
      validate_ident s.ident
      pure s : CResult SerderACDC) = .error Error.unexpectedIdentity
    rw [Sadder_new_raw, hfr]
    simp only [cbind_ok]
    unfold validate_ident
    rw [if_pos (by simpa using hni)]
    rfl

/-- A key-event-log record buffer: its version-string identity is `KERI`. -/
def keriBuf : List Char := ("\x7b\"v\":\"KERI10JSON000000_\"\x7d").data

theorem C1_identity_gating_witness :
    SerderACDC.new_with_raw keriBuf ≠
      .ok ⟨"", [], .null, "", "", 0, ⟨0, 0⟩, ⟨"", ""⟩⟩ :=
  (@C1_identity_gating keriBuf ⟨"KERI", 1, 0, "JSON", 0⟩ (by rfl) (by decide)).1 _

theorem C1_identity_gating_counterexample :
    sniff keriBuf = .ok ⟨Identage.KERI, 1, 0, Serialage.JSON, 0⟩ ∧
    Identage.KERI ≠ Identage.ACDC ∧
    SerderACDC.new_with_raw keriBuf = .error .CodecFailure ∧
    Error.CodecFailure ≠ Error.unexpectedIdentity :=
  ⟨by rfl, by decide, by rfl, by decide⟩

/-- C2: for every successfully constructed SerderACDC record, `status`
returns `Some` of the literal string stored at field `ri` of its KED when
that field is present, and `Ok(None)` rather than an error when the KED has
no `ri` field. -/
theorem C2_status_projection {code : Option String} {raw : Option (List Char)}
    {kind : Option String} {kedo : Option Value} {r : SerderACDC}
    (h : SerderACDC.new code raw kind kedo none = .ok r) :
    (∀ s, r.ked.lookup "ri" = some (.str s) → r.status = .ok (some s)) ∧
    (r.ked.lookup "ri" = none → r.status = .ok none) := by
  obtain ⟨ps, hked⟩ := new_ok_ked_map h
  constructor
  · intro s hs
    rw [hked] at hs
    unfold SerderACDC.status
    rw [hked]
    simp only [Value.toMap, cbind_ok]
    rw [show lookupPairs "ri" ps = some (Value.str s) from by
      simpa [Value.lookup] using hs]
    rfl
  · intro hs
    rw [hked] at hs
    unfold SerderACDC.status
    rw [hked]
    simp only [Value.toMap, cbind_ok]
    rw [show lookupPairs "ri" ps = none from by simpa [Value.lookup] using hs]
    rfl

theorem C2_status_projection_witness : cRec.status = .ok (some "ESTAT") :=
  (@C2_status_projection none none none (some cKed) cRec (by rfl)).1 "ESTAT" (by rfl)

/-- C4: every accessor of a SerderACDC record is a pure projection of its
stored fields: each plain accessor returns exactly the stored field, the
derived accessors are functions of the stored KED alone (two records
agreeing on the KED but differing in every other field — in particular in
the stored raw bytes and the stored Saider — yield identical results), and
no digest or serialization is recomputed. -/
theorem C4_accessors_pure (code : String) (raw : List Char) (ked : Value)
    (ident kind : String) (size : Nat) (version : Version) (saider : Saider)
    (code2 : String) (raw2 : List Char) (ident2 kind2 : String) (size2 : Nat)
    (version2 : Version) (saider2 : Saider) :
    (SerderACDC.mk code raw ked ident kind size version saider).code = code ∧
    (SerderACDC.mk code raw ked ident kind size version saider).raw = raw ∧
    (SerderACDC.mk code raw ked ident kind size version saider).ked = ked ∧
    (SerderACDC.mk code raw ked ident kind size version saider).ident = ident ∧
    (SerderACDC.mk code raw ked ident kind size version saider).kind = kind ∧
    (SerderACDC.mk code raw ked ident kind size version saider).size = size ∧
    (SerderACDC.mk code raw ked ident kind size version saider).version = version ∧
    (SerderACDC.mk code raw ked ident kind size version saider).saider = saider ∧
    (SerderACDC.mk code raw ked ident kind size version saider).crd = ked ∧
    (SerderACDC.mk code raw ked ident kind size version saider).subject =
      ked.atD Ids.a ∧
    (SerderACDC.mk code raw ked ident kind size version saider).issuer =
      (ked.atD Ids.i).asString ∧
    (SerderACDC.mk code raw ked ident kind size version saider).schema =
      (ked.atD Ids.s).asString ∧
    (SerderACDC.mk code2 raw2 ked ident2 kind2 size2 version2 saider2).crd =
      (SerderACDC.mk code raw ked ident kind size version saider).crd ∧
    (SerderACDC.mk code2 raw2 ked ident2 kind2 size2 version2 saider2).issuer =
      (SerderACDC.mk code raw ked ident kind size version saider).issuer ∧
    (SerderACDC.mk code2 raw2 ked ident2 kind2 size2 version2 saider2).schema =
      (SerderACDC.mk code raw ked ident kind size version saider).schema ∧
    (SerderACDC.mk code2 raw2 ked ident2 kind2 size2 version2 saider2).subject =
      (SerderACDC.mk code raw ked ident kind size version saider).subject ∧
    (SerderACDC.mk code2 raw2 ked ident2 kind2 size2 version2 saider2).status =
      (SerderACDC.mk code raw ked ident kind size version saider).status ∧
    (SerderACDC.mk code2 raw2 ked ident2 kind2 size2 version2 saider2).chains =
      (SerderACDC.mk code raw ked ident kind size version saider).chains := by
  repeat' constructor

/-- C5: every public operation of SerderACDC is total over the declared
error set: construction always returns a record or an error (never a crash),
`issuer`/`schema` on a KED lacking the `i`/`s` field return an error, and a
successfully constructed record is never half-initialized — in particular it
always carries the ACDC identity. -/
theorem C5_totality :
    (∀ code raw kind ked sad,
      (∃ r, SerderACDC.new code raw kind ked sad = .ok r) ∨
      (∃ e, SerderACDC.new code raw kind ked sad = .error e)) ∧
    (∀ r : SerderACDC, r.ked.lookup Ids.i = none → ∃ e, r.issuer = .error e) ∧
    (∀ r : SerderACDC, r.ked.lookup Ids.s = none → ∃ e, r.schema = .error e) ∧
    (∀ code raw kind ked r, SerderACDC.new code raw kind ked none = .ok r →
      r.ident = Identage.ACDC) := by
  refine ⟨?_, ?_, ?_, ?_⟩
  · intro code raw kind ked sad
    cases h : SerderACDC.new code raw kind ked sad with
    | ok r => exact Or.inl ⟨r, rfl⟩
    | error e => exact Or.inr ⟨e, rfl⟩
  · intro r hl
    refine ⟨.Value "not a string", ?_⟩
    unfold SerderACDC.issuer Value.atD
    rw [hl]
    rfl
  · intro r hl
    refine ⟨.Value "not a string", ?_⟩
    unfold SerderACDC.schema Value.atD
    rw [hl]
    rfl
  · intro code raw kind ked r h
    exact (SerderACDC_new_ok_elim h).2

theorem C5_totality_witness :
    (∃ e, (SerderACDC.mk "" [] (.map []) "" "" 0 ⟨0, 0⟩ ⟨"", ""⟩).issuer =
      .error e) ∧ cRec.ident = Identage.ACDC :=
  ⟨C5_totality.2.1 _ (by rfl),
    C5_totality.2.2.2 none none none (some cKed) cRec (by rfl)⟩

/-- C7: `saidify` is idempotent on its finalized output — applying it to the
finalized KED it produced yields the same digest value (the same Saider) and
the same finalized KED, hence the same serialized bytes. -/
theorem C7_saidify_idempotent {sad : Value} {code kind : Option String}
    {sd : Saider} {ked' : Value}
    (h : Saider.saidify sad code kind none none = .ok (sd, ked')) :
    Saider.saidify ked' code kind none none = .ok (sd, ked') :=
  saidify_idem h (Or.inl rfl)

/-- The concrete result of one `saidify` pass over `cKed`. -/
def cPair : Saider × Value :=
  match Saider.saidify cKed none none none none with
  | .ok p => p
  | .error _ => (⟨"", ""⟩, .null)

theorem C7_saidify_idempotent_witness :
    Saider.saidify cPair.2 none none none none = .ok (cPair.1, cPair.2) :=
  @C7_saidify_idempotent cKed none none cPair.1 cPair.2 (by rfl)

/-- C9: when `SerderACDC::new` is called with `code = None`, the digest code
defaults to Blake3-256: the constructed record's code is the Blake3-256
table code, for every raw/ked/kind argument combination that succeeds. -/
theorem C9_default_code {raw : Option (List Char)} {kind : Option String}
    {kedo : Option Value} {r : SerderACDC}
    (h : SerderACDC.new none raw kind kedo none = .ok r) :
    r.code = Codex.Blake3_256 := by
  obtain ⟨hsad, _⟩ := SerderACDC_new_ok_elim h
  cases raw with
  | some b =>
    rw [Sadder_new_raw] at hsad
    obtain ⟨tk, ked, d0, sd, ked3, _, _, _, _, _, _, hr⟩ := fromRaw_ok_elim hsad
    rw [hr]
    rfl
  | none =>
    cases kedo with
    | some k =>
      rw [Sadder_new_ked] at hsad
      obtain ⟨saider, ked', vstr, tk, raw', _, _, _, _, hr⟩ := fromKed_ok_elim hsad
      rw [hr]
      rfl
    | none => simp [Sadder.new] at hsad

theorem C9_default_code_witness : cRec.code = Codex.Blake3_256 :=
  @C9_default_code none none (some cKed) cRec (by rfl)

/-- C10: for every successfully constructed SerderACDC record, `chains`
returns the value of field `e` of its KED when present, and the empty map —
not an error and not an absent value — when the KED has no `e` field. -/
theorem C10_chains_projection {code : Option String} {raw : Option (List Char)}
    {kind : Option String} {kedo : Option Value} {r : SerderACDC}
    (h : SerderACDC.new code raw kind kedo none = .ok r) :
    (∀ v, r.ked.lookup "e" = some v → r.chains = .ok v) ∧
    (r.ked.lookup "e" = none → r.chains = .ok (.map [])) := by
  obtain ⟨ps, hked⟩ := new_ok_ked_map h
  constructor
  · intro v hs
    rw [hked] at hs
    unfold SerderACDC.chains
    rw [hked]
    simp only [Value.toMap, cbind_ok]
    rw [show lookupPairs "e" ps = some v from by simpa [Value.lookup] using hs]
    rfl
  · intro hs
    rw [hked] at hs
    unfold SerderACDC.chains
    rw [hked]
    simp only [Value.toMap, cbind_ok]
    rw [show lookupPairs "e" ps = none from by simpa [Value.lookup] using hs]
    rfl

theorem C10_chains_projection_witness :
    cRec2.chains = .ok (.map [(Ids.d, .str "EX")]) :=
  (@C10_chains_projection none none none (some cKed2) cRec2 (by rfl)).1 _ (by rfl)

/-- C6: for every KED accepted by `new_with_ked` (under any code and any
supported serialization kind), the size field of the resulting record equals
the exact byte length of its raw serialization, and the version-string size
subfield embedded in the finalized KED decodes to that same length. -/
theorem C6_size_consistency {ked : Value} {code kind : Option String}
    {r : SerderACDC} (h : SerderACDC.new_with_ked ked code kind = .ok r) :
    r.size = r.raw.length ∧
    ∃ vstr tk, r.ked.lookup Ids.v = some (.str vstr) ∧
      deversify vstr.data = .ok tk ∧ tk.size = r.raw.length := by
  obtain ⟨hfk, _⟩ := new_with_ked_ok_iff.mp h
  obtain ⟨saider, ked', vstr, tk, raw, hsy, hlv, htk, hser, hr⟩ := fromKed_ok_elim hfk
  obtain ⟨ps, fs, hsad, hfs, hcase⟩ := saidify_ok_elim hsy
  have hdv : Ids.d ≠ Ids.v := by decide
  have hvd : Ids.v ≠ Ids.d := by decide
  rcases hcase with ⟨vstr0, tk0, vs, hlv0, htk0, hkd0, hvs, hsd, hked⟩ |
    ⟨hlvB, _, _, hkedB⟩
  · set X := putPairs Ids.d (.str (placeholder fs)) ps with hX
    set Y := putPairs Ids.v (.str vs) X with hY
    have hvv : vstr = vs := by
      have hlv2 := hlv
      rw [hked] at hlv2
      simp only [Value.lookup] at hlv2
      rw [lookupPairs_putPairs_ne hdv, hY, lookupPairs_putPairs_self] at hlv2
      exact (Value.str.inj (Option.some.inj hlv2)).symm
    have htkeq : tk = ⟨tk0.ident, tk0.major, tk0.minor, tk0.kind,
        (dumps (Value.map X)).length⟩ := by
      rw [hvv] at htk
      rw [versify_deversify hvs] at htk
      exact (Except.ok.inj htk).symm
    have hraw : raw = dumps ked' := by
      rw [htkeq] at hser
      simp only [serializeKed] at hser
      rw [if_pos hkd0] at hser
      exact (Except.ok.inj hser).symm
    have hql : saider.qb64.data.length = fs := by
      rw [hsd]
      exact qb64Digest_length hfs _
    have hlvY : lookupPairs Ids.d Y = some (.str (placeholder fs)) := by
      rw [hY, lookupPairs_putPairs_ne hvd]
      exact lookupPairs_putPairs_self _ _ _
    have hlen1 : (dumps (Value.map (putPairs Ids.d (.str saider.qb64) Y))).length =
        (dumps (Value.map Y)).length :=
      dumps_map_put_len hlvY (by simp [placeholder_data, hql])
    have hlen2 : (dumps (Value.map Y)).length = (dumps (Value.map X)).length := by
      rw [hY]
      exact dumps_map_put_len hlv0
        (by rw [versify_len hvs, deversify_len htk0])
    have hmain : tk.size = raw.length := by
      rw [htkeq, hraw, hked]
      show (dumps (Value.map X)).length =
        (dumps (Value.map (putPairs Ids.d (.str saider.qb64) Y))).length
      rw [hlen1, hlen2]
    constructor
    · rw [hr]
      exact hmain
    · refine ⟨vstr, tk, ?_, htk, ?_⟩
      · rw [hr]
        exact hlv
      · rw [hr]
        exact hmain
  · exfalso
    rw [hkedB] at hlv
    simp only [Value.lookup] at hlv
    rw [lookupPairs_putPairs_ne hdv, hlvB] at hlv
    simp at hlv

theorem C6_size_consistency_witness : cRec.size = cRec.raw.length :=
  (@C6_size_consistency cKed none none cRec (by rfl)).1

theorem canonical_said {b : List Char} {r : SerderACDC}
    (h : Sadder.fromRaw Codex.Blake3_256 b = .ok r) (hlen : b.length = r.size) :
    ∃ ps fs s tl d0 tk,
      r = ⟨Codex.Blake3_256, b, .map ps, tk.ident, tk.kind, tk.size,
        ⟨tk.major, tk.minor⟩, ⟨Codex.Blake3_256, d0⟩⟩ ∧
      b = dumps (.map ps) ∧
      ps = (Ids.v, .str s) :: tl ∧
      wfPairs ps = true ∧
      Matter.sizage Codex.Blake3_256 = some fs ∧
      lookupPairs Ids.d ps = some (.str d0) ∧
      d0.data.length = fs ∧
      deversify s.data = .ok tk ∧
      tk.kind = Serialage.JSON ∧
      tk.size = (dumps (Value.map ps)).length ∧
      saidKed Codex.Blake3_256 fs ps = d0 := by
  obtain ⟨tk, ked, d0, sd, ked3, hsn, hsz, hds, hld, hsy, hqe, hr⟩ := fromRaw_ok_elim h
  have hsize : tk.size = b.length := by
    rw [hr] at hlen
    exact hlen.symm
  have htake : b.take tk.size = b := by
    rw [hsize]
    exact List.take_length b
  rw [htake] at hds hr
  obtain ⟨ps, fs, hsad, hfs, hcase⟩ := saidify_ok_elim hsy
  subst hsad
  obtain ⟨hkJ, hloads⟩ := deserializeKed_ok_kind hds
  obtain ⟨hdumps, hwf⟩ := loads_sound hloads
  have hwfp : wfPairs ps = true := by simpa [Value.wf] using hwf
  obtain ⟨s, tl, hps⟩ := dumps_map_vhead hwfp (by
    obtain ⟨h6, _⟩ := sniff_ok_elim hsn
    rw [hdumps]
    exact h6)
  have hdv : Ids.d ≠ Ids.v := by decide
  have hlvps : lookupPairs Ids.v ps = some (.str s) := by
    rw [hps]
    simp [lookupPairs]
  have hldp : lookupPairs Ids.d ps = some (.str d0) := by
    simpa [Value.lookup] using hld
  have hlvX : lookupPairs Ids.v (putPairs Ids.d (.str (placeholder fs)) ps) =
      some (.str s) := by
    rw [lookupPairs_putPairs_ne hdv]
    exact hlvps
  rcases hcase with ⟨vstr0, tk0, vs, hlv0, htk0, hkd0, hvs, hsd, hked3⟩ |
    ⟨hlvB, _, _, _⟩
  · have hv0eq : s = vstr0 := by
      rw [hlvX] at hlv0
      exact Value.str.inj (Option.some.inj hlv0)
    subst hv0eq
    have hs17 : s.data.length = 17 := deversify_len htk0
    have hsn2 : deversify s.data = .ok tk := by
      have hsv := sniff_dumps_vhead tl hs17
      rw [← hps, hdumps] at hsv
      rw [hsn] at hsv
      exact hsv.symm
    have htk0eq : tk = tk0 := by
      rw [hsn2] at htk0
      exact Except.ok.inj htk0
    subst htk0eq
    have hdl : d0.data.length = fs := by
      rw [← hqe, hsd]
      exact qb64Digest_length hfs _
    have hszeq : tk.size = (dumps (Value.map ps)).length := by
      rw [hdumps]
      exact hsize
    have hXlen : (dumps (Value.map (putPairs Ids.d (.str (placeholder fs))
        ps))).length = (dumps (Value.map ps)).length :=
      dumps_map_put_len hldp (by simp [placeholder_data, hdl])
    have hvs2 : versify tk.ident tk.major tk.minor tk.kind tk.size = .ok s := by
      have hdvv := deversify_versify hsn2
      simpa using hdvv
    have hvseq : s = vs := by
      have hvs' := hvs
      rw [show (dumps (Value.map (putPairs Ids.d (.str (placeholder fs))
          ps))).length = tk.size from by rw [hXlen]; exact hszeq.symm] at hvs'
      rw [hvs2] at hvs'
      exact Except.ok.inj hvs'
    subst hvseq
    have hput : putPairs Ids.v (.str s) (putPairs Ids.d (.str (placeholder fs)) ps) =
        putPairs Ids.d (.str (placeholder fs)) ps := lookupPairs_put_self hlvX
    have hd0 : saidKed Codex.Blake3_256 fs ps = d0 := by
      rw [← hqe, hsd]
      show saidKed Codex.Blake3_256 fs ps = qb64Digest Codex.Blake3_256 fs
        (dumps (Value.map (putPairs Ids.v (.str s)
          (putPairs Ids.d (.str (placeholder fs)) ps))))
      unfold saidKed
      rw [hput]
    exact ⟨ps, fs, s, tl, d0, tk, hr, hdumps.symm, hps, hwfp, hfs, hldp, hdl,
      hsn2, hkJ, hszeq, hd0⟩
  · rw [lookupPairs_putPairs_ne hdv, hlvps] at hlvB
    simp at hlvB

/-- C3: the round-trip law.  Direction one: for every well-formed raw buffer
`b` (one whose declared size covers the whole buffer), constructing a record
from `b`, taking its KED, and reconstructing from that KED with the same
(default) code and kind yields the very same record, whose raw bytes equal
`b` byte-for-byte.  Direction two: from a codec-safe KED whose first field
is the version string, a record built KED-first re-decodes from its own raw
bytes to the very same record — both directions reach the same canonical
form. -/
theorem C3_round_trip :
    (∀ b r, SerderACDC.new_with_raw b = .ok r → b.length = r.size →
      SerderACDC.new_with_ked r.ked none none = .ok r ∧ r.raw = b) ∧
    (∀ w tl r, SerderACDC.new_with_ked (.map ((Ids.v, w) :: tl)) none none = .ok r →
      (Value.map ((Ids.v, w) :: tl)).wf = true →
      SerderACDC.new_with_raw r.raw = .ok r) := by
  constructor
  · intro b r hok hlen
    obtain ⟨hfr, hid⟩ := new_with_raw_ok_iff.mp hok
    obtain ⟨ps, fs, s, tl, d0, tk, hr, hb, hps, hwfp, hfs, hld, hdl, htk, hkind,
      hsz, hd0⟩ := canonical_said hfr hlen
    have hlv : lookupPairs Ids.v ps = some (.str s) := by
      rw [hps]
      simp [lookupPairs]
    have hsy : Saider.saidify (Value.map ps) (some Codex.Blake3_256) none none none =
        .ok (⟨Codex.Blake3_256, d0⟩, .map ps) :=
      @saidify_fixpoint ps (some Codex.Blake3_256) fs hfs d0 hld hdl s hlv tk htk
        hkind hsz hd0 none
    have hser : serializeKed tk.kind (Value.map ps) = .ok (dumps (Value.map ps)) := by
      rw [hkind]
      rfl
    have hfk := fromKed_ok_intro hsy
      (show (Value.map ps).lookup Ids.v = some (.str s) by
        simpa [Value.lookup] using hlv) htk hser
    constructor
    · refine new_with_ked_ok_iff.mpr ⟨?_, hid⟩
      rw [hr, hb]
      exact hfk
    · rw [hr]
  · intro w tl r hok hwf
    obtain ⟨hfk, hid⟩ := new_with_ked_ok_iff.mp hok
    obtain ⟨saider, ked', vstr, tk, raw, hsy, hlv, htk, hser, hr⟩ :=
      fromKed_ok_elim hfk
    obtain ⟨ps, fs, hsad, hfs, hcase⟩ := saidify_ok_elim hsy
    have hpseq : (Ids.v, w) :: tl = ps := Value.map.inj hsad
    subst hpseq
    have hvd' : ¬ (Ids.v = Ids.d) := by decide
    have hvd : Ids.v ≠ Ids.d := hvd'
    have hdv : Ids.d ≠ Ids.v := by decide
    have hXc : putPairs Ids.d (.str (placeholder fs)) ((Ids.v, w) :: tl) =
        (Ids.v, w) :: putPairs Ids.d (.str (placeholder fs)) tl := by
      simp only [putPairs]
      rw [if_neg hvd']
    rcases hcase with ⟨vstr0, tk0, vs, hlv0, htk0, hkd0, hvs, hsd, hked⟩ |
      ⟨hlvB, _, _, _⟩
    · have hlvX : lookupPairs Ids.v (putPairs Ids.d (.str (placeholder fs))
          ((Ids.v, w) :: tl)) = some w := by
        rw [hXc]
        simp [lookupPairs]
      have hw : w = .str vstr0 := by
        rw [hlvX] at hlv0
        exact Option.some.inj hlv0
      subst hw
      have hvv : vstr = vs := by
        have hlv2 := hlv
        rw [hked] at hlv2
        simp only [Value.lookup] at hlv2
        rw [lookupPairs_putPairs_ne hdv, lookupPairs_putPairs_self] at hlv2
        exact (Value.str.inj (Option.some.inj hlv2)).symm
      subst hvv
      have hY : putPairs Ids.v (.str vstr) (putPairs Ids.d (.str (placeholder fs))
          ((Ids.v, .str vstr0) :: tl)) =
          (Ids.v, .str vstr) :: putPairs Ids.d (.str (placeholder fs)) tl := by
        rw [hXc]
        simp only [putPairs, if_true]
      have hked2 : ked' = .map ((Ids.v, .str vstr) ::
          putPairs Ids.d (.str saider.qb64) tl) := by
        rw [hked, hY]
        simp only [putPairs]
        rw [if_neg hvd', putPairs_collapse]
      have htkval : tk = ⟨tk0.ident, tk0.major, tk0.minor, tk0.kind,
          (dumps (Value.map (putPairs Ids.d (.str (placeholder fs))
            ((Ids.v, .str vstr0) :: tl)))).length⟩ := by
        rw [versify_deversify hvs] at htk
        exact (Except.ok.inj htk).symm
      have hraw : raw = dumps ked' := by
        rw [htkval] at hser
        simp only [serializeKed] at hser
        rw [if_pos hkd0] at hser
        exact (Except.ok.inj hser).symm
      have hql : saider.qb64.data.length = fs := by
        rw [hsd]
        exact qb64Digest_length hfs _
      have hlvY : lookupPairs Ids.d (putPairs Ids.v (.str vstr)
          (putPairs Ids.d (.str (placeholder fs)) ((Ids.v, .str vstr0) :: tl))) =
          some (.str (placeholder fs)) := by
        rw [lookupPairs_putPairs_ne hvd]
        exact lookupPairs_putPairs_self _ _ _
      have hlen1 : (dumps (Value.map (putPairs Ids.d (.str saider.qb64)
          (putPairs Ids.v (.str vstr) (putPairs Ids.d (.str (placeholder fs))
            ((Ids.v, .str vstr0) :: tl)))))).length =
          (dumps (Value.map (putPairs Ids.v (.str vstr)
            (putPairs Ids.d (.str (placeholder fs))
              ((Ids.v, .str vstr0) :: tl))))).length :=
        dumps_map_put_len hlvY (by simp [placeholder_data, hql])
      have hlen2 : (dumps (Value.map (putPairs Ids.v (.str vstr)
          (putPairs Ids.d (.str (placeholder fs))
            ((Ids.v, .str vstr0) :: tl))))).length =
          (dumps (Value.map (putPairs Ids.d (.str (placeholder fs))
            ((Ids.v, .str vstr0) :: tl)))).length :=
        dumps_map_put_len hlv0 (by rw [versify_len hvs, deversify_len htk0])
      have hrawlen : (dumps ked').length = (dumps (Value.map (putPairs Ids.d
          (.str (placeholder fs)) ((Ids.v, .str vstr0) :: tl)))).length := by
        rw [hked, hlen1, hlen2]
      have hwfx : wfPairs ((Ids.v, Value.str vstr0) :: tl) = true := by
        simpa [Value.wf] using hwf
      have hwfk : ked'.wf = true := by
        rw [hked2]
        simp only [Value.wf, wfPairs, Bool.and_eq_true]
        refine ⟨⟨by decide, ?_⟩, ?_⟩
        · exact versify_strOk hvs
        · apply wfPairs_putPairs
          · simp only [wfPairs, Bool.and_eq_true] at hwfx
            exact hwfx.2
          · decide
          · rw [hsd]
            exact qb64Digest_strOk _ _ _ (by decide)
      have hvstr17 : vstr.data.length = 17 := versify_len hvs
      have hsnr : sniff (dumps ked') = .ok tk := by
        rw [hked2]
        rw [sniff_dumps_vhead _ hvstr17]
        rw [htkval]
        exact versify_deversify hvs
      have htksz : tk.size = (dumps ked').length := by
        rw [htkval, hrawlen]
      have hsizeck : ¬ (dumps ked').length < tk.size := by
        rw [htksz]
        exact lt_irrefl _
      have htake2 : (dumps ked').take tk.size = dumps ked' := by
        rw [htksz]
        exact List.take_length _
      have hkind2 : tk.kind = Serialage.JSON := by
        rw [htkval]
        exact hkd0
      have hds2 : deserializeKed tk.kind ((dumps ked').take tk.size) = .ok ked' := by
        rw [htake2, hkind2]
        unfold deserializeKed
        rw [if_pos rfl]
        exact loads_complete hwfk
      have hld2 : ked'.lookup Ids.d = some (.str saider.qb64) := by
        rw [hked2]
        simp only [Value.lookup, lookupPairs]
        rw [if_neg hvd']
        exact lookupPairs_putPairs_self _ _ _
      have hsy2 : Saider.saidify ked' (some Codex.Blake3_256) none none none =
          .ok (saider, ked') := saidify_idem hsy (Or.inr rfl)
      have hfr2 := fromRaw_ok_intro hsnr hsizeck hds2 hld2 hsy2 rfl
      have hsaider : (⟨Codex.Blake3_256, saider.qb64⟩ : Saider) = saider := by
        rw [hsd]
        rfl
      have hfr3 : Sadder.fromRaw Codex.Blake3_256 (dumps ked') = .ok r := by
        rw [hfr2, hr, htake2, hraw, hsaider]
        rfl
      have hrraw : r.raw = dumps ked' := by
        rw [hr]
        exact hraw
      rw [hrraw]
      exact new_with_raw_ok_iff.mpr ⟨hfr3, hid⟩
    · rw [hXc] at hlvB
      simp [lookupPairs] at hlvB

theorem C3_round_trip_witness : SerderACDC.new_with_raw cRec.raw = .ok cRec :=
  C3_round_trip.2 (.str "ACDC10JSON000000_")
    [(Ids.d, .str ""), (Ids.i, .str "EABC"), ("ri", .str "ESTAT"),
      (Ids.s, .str "ESCH"), (Ids.a, .map [("dt", .str "2023")])]
    cRec (by rfl) (by rfl)

theorem new_with_raw_err {b : List Char} {e : Error}
    (h : Sadder.fromRaw Codex.Blake3_256 b = .error e) :
    SerderACDC.new_with_raw b = .error e := by
  show (do
    let s ← Sadder.new (some Codex.Blake3_256) (some b) none none none
    validate_ident s.ident
    pure s : CResult SerderACDC) = .error e
  rw [Sadder_new_raw, h]
  rfl

/-- C8 (amended): altering the embedded digest field of a well-formed,
canonically constructed buffer — replacing its value with any other
codec-safe string of the same width — makes construction from the altered
buffer fail with exactly `DigestMismatch`, never a silent pass.  The
universal form of the original claim is refuted by
`C8_tamper_detection_counterexample`: a single-character change in the
version-string size subfield fails with `Incomplete`, not `DigestMismatch`. -/
theorem C8_tamper_detection {b : List Char} {r : SerderACDC} {d1 : String}
    (hok : SerderACDC.new_with_raw b = .ok r) (hlen : b.length = r.size)
    (hstr : strOk d1 = true)
    (hlen1 : d1.data.length = r.saider.qb64.data.length)
    (hne : d1 ≠ r.saider.qb64) :
    ∀ ked2, r.ked.put Ids.d (.str d1) = .ok ked2 →
      SerderACDC.new_with_raw (dumps ked2) = .error .DigestMismatch := by
  obtain ⟨hfr, hid⟩ := new_with_raw_ok_iff.mp hok
  obtain ⟨ps, fs, s, tl, d0, tk, hr, hb, hps, hwfp, hfs, hld, hdl, htk, hkind,
    hsz, hd0⟩ := canonical_said hfr hlen
  intro ked2 hput
  have hd0r : r.saider.qb64 = d0 := by
    rw [hr]
  have hne' : d1 ≠ d0 := by
    rw [← hd0r]
    exact hne
  have hd1l : d1.data.length = fs := by
    rw [hlen1, hd0r, hdl]
  have hked2 : ked2 = .map (putPairs Ids.d (.str d1) ps) := by
    rw [hr] at hput
    exact (Except.ok.inj hput).symm
  have hps2 : putPairs Ids.d (.str d1) ps =
      (Ids.v, .str s) :: putPairs Ids.d (.str d1) tl := by
    rw [hps]
    simp only [putPairs]
    rw [if_neg (show ¬ (Ids.v = Ids.d) by decide)]
  have hs17 : s.data.length = 17 := deversify_len htk
  have hsn2 : sniff (dumps (Value.map (putPairs Ids.d (.str d1) ps))) = .ok tk := by
    rw [hps2, sniff_dumps_vhead _ hs17]
    exact htk
  have hlen2 : (dumps (Value.map (putPairs Ids.d (.str d1) ps))).length =
      (dumps (Value.map ps)).length :=
    dumps_map_put_len hld (by rw [hd1l, hdl])
  have hszeq2 : tk.size = (dumps (Value.map (putPairs Ids.d (.str d1) ps))).length := by
    rw [hlen2]
    exact hsz
  have hszck : ¬ (dumps (Value.map (putPairs Ids.d (.str d1) ps))).length < tk.size := by
    rw [hszeq2]
    exact lt_irrefl _
  have htake : (dumps (Value.map (putPairs Ids.d (.str d1) ps))).take tk.size =
      dumps (Value.map (putPairs Ids.d (.str d1) ps)) := by
    rw [hszeq2]
    exact List.take_length _
  have hwf2 : wfPairs (putPairs Ids.d (.str d1) ps) = true :=
    wfPairs_putPairs hwfp (by decide) hstr
  have hds2 : deserializeKed tk.kind
      ((dumps (Value.map (putPairs Ids.d (.str d1) ps))).take tk.size) =
      .ok (Value.map (putPairs Ids.d (.str d1) ps)) := by
    rw [htake, hkind]
    unfold deserializeKed
    rw [if_pos rfl]
    exact loads_complete (by simpa [Value.wf] using hwf2)
  have hld2 : (Value.map (putPairs Ids.d (.str d1) ps)).lookup Ids.d =
      some (.str d1) := by
    simp only [Value.lookup]
    exact lookupPairs_putPairs_self _ _ _
  have hv2 : lookupPairs Ids.v (putPairs Ids.d (.str d1) ps) = some (.str s) := by
    rw [lookupPairs_putPairs_ne (show Ids.d ≠ Ids.v by decide), hps]
    simp [lookupPairs]
  have hsy2 := @saidify_stable (putPairs Ids.d (.str d1) ps)
    (some Codex.Blake3_256) fs hfs d1 (lookupPairs_putPairs_self _ _ _) hd1l
    s hv2 tk htk hkind hszeq2 none
  have hsk : saidKed Codex.Blake3_256 fs (putPairs Ids.d (.str d1) ps) = d0 := by
    unfold saidKed
    rw [putPairs_collapse]
    exact hd0
  have hqe2 : saidKed Codex.Blake3_256 fs (putPairs Ids.d (.str d1) ps) ≠ d1 := by
    rw [hsk]
    exact Ne.symm hne'
  have hmm := fromRaw_mismatch hsn2 hszck hds2 hld2 hsy2 hqe2
  rw [hked2]
  exact new_with_raw_err hmm

/-- The finalized KED of `cRec` with its digest field overwritten by a
placeholder of the same width. -/
def cKedAlt : Value :=
  match cRec.ked.put Ids.d (.str (placeholder 44)) with
  | .ok v => v
  | .error _ => .null

theorem C8_tamper_detection_witness :
    SerderACDC.new_with_raw (dumps cKedAlt) = .error .DigestMismatch :=
  @C8_tamper_detection cRec.raw cRec (placeholder 44) (by rfl) (by rfl) (by rfl)
    (by rfl) (by decide) cKedAlt (by rfl)

theorem C8_tamper_detection_counterexample :
    SerderACDC.new_with_raw cRec.raw = .ok cRec ∧
    cRec.raw.get? 16 = some '0' ∧
    SerderACDC.new_with_raw (cRec.raw.set 16 'f') = .error .Incomplete ∧
    Error.Incomplete ≠ Error.DigestMismatch :=
  ⟨by rfl, by rfl, by rfl, by decide⟩
